import Mathlib

/-!
Verification development for the onset-detection and multi-channel
segmentation pipeline of `tools/create_drumgizmo_kit.py` (edrumulus).

Modelling conventions.

* Audio samples are 16-bit integers in the source (`np.int16`); they are
  modelled as unbounded `Int` values: the pipeline only moves them around
  (no arithmetic on channel samples), so no wrap-around semantics arise.
* The envelope is IEEE-754 floating point in the source; it is modelled
  over `ℚ` (exact arithmetic).  The threshold expression of line 109,
  `np.power(10, (10 * np.log10(np.max(x)) - thresh_from_max) / 10)`,
  is modelled twice: over `ℝ` exactly as written (`threshold_real`), and
  over `ℚ` as `envMax x / 1000000`; the lemma `threshold_real_eq_div`
  proves the two agree for positive maxima, which justifies the rational
  form used by the executable segmentation model.
* The in-place debounce loop of lines 113-119 only reads the entry at
  index `i - 1` (the value possibly written in the previous iteration)
  and the current entry, so it is embedded as a structurally recursive
  pass that threads the previous (updated) entry and `last_above_idx`.
* `np.argwhere(np.diff(a) > 0)` returns, in increasing order, exactly the
  indices `i` with `a[i] = false` and `a[i+1] = true`; `< 0` the indices
  with `a[i] = true` and `a[i+1] = false` (`risingEdges`/`fallingEdges`).
* NumPy column assignment `m[:, c] = v` succeeds when `v` has exactly the
  column length or length one (broadcast), and raises otherwise; the
  `assignColumn` embedding returns `none` for the raising case.
* The script has no error or warning mechanism whatsoever: the wave-read
  loop of lines 93-100 validates nothing (its comments read "assuming all
  wave have the same rate", "assuming 16 bit"), and no code path raises,
  prints or collects a warning.  `surfaced_warnings` records that fact.
  Definitions whose doc comment starts with "Modelled from the spec"
  follow the specification's words instead, for comparison.
-/

attribute [local semireducible] Rat.add Rat.mul Rat.inv Rat.sub

/-- One source WAV file as the wave-read loop of lines 95-100 sees it:
a frame rate (`file.getframerate()`) and its int16 frames
(`np.frombuffer(file.readframes(-1), np.int16)`). -/
structure WavFile where
  rate : Nat
  frames : List Int

/-- Lines 93-100: the wave-read loop.  Each iteration overwrites
`sample_rate` with the current file's rate and stores the frames; nothing
is checked.  The resulting rate is therefore the last file's rate (`none`
when the file list is empty, in which case the script's later uses of
`sample_rate` would be an unbound name), and the buffers are returned
unconditionally. -/
def read_wave_forms (files : List WavFile) : Option Nat × List (List Int) :=
  (files.foldl (fun _ f => some f.rate) none, files.map (fun f => f.frames))

/-- Modelled from the spec: the loader error taxonomy of sections 4.1 and 7
(`ChannelMismatchError`, `RateMismatchError`, `ChannelCountError`).  No such
errors exist anywhere in the source; this type exists only to state the
specified behaviour for comparison with `read_wave_forms`. -/
inductive LoaderError where
  | ChannelMismatchError
  | RateMismatchError
  | ChannelCountError

/-- Modelled from the spec (section 4.1): "fails with `ChannelMismatchError`
if lengths differ; fails with `RateMismatchError` if sample rates differ;
fails with `ChannelCountError` if fewer than 1 channel is supplied". -/
def loader_spec (files : List WavFile) : Except LoaderError (Nat × List (List Int)) :=
  match files with
  | [] => Except.error LoaderError.ChannelCountError
  | f :: rest =>
    if rest.any (fun g => g.frames.length != f.frames.length) then
      Except.error LoaderError.ChannelMismatchError
    else if rest.any (fun g => g.rate != f.rate) then
      Except.error LoaderError.RateMismatchError
    else
      Except.ok (f.rate, (f :: rest).map (fun g => g.frames))

/-- Line 109 over `ℝ`, exactly as the numpy expression is written:
`np.power(10, (10 * np.log10(M) - thresh_from_max) / 10)` with
`thresh_from_max = 60` and `M = np.max(x)`. -/
noncomputable def threshold_real (M : ℝ) : ℝ :=
  (10 : ℝ) ^ ((10 * Real.logb 10 M - 60) / 10)

/-- Value of `np.max` on the envelope (line 109); the source script only
evaluates it on nonempty envelopes (`np.max` raises on an empty array, and
the returned `0` for `[]` is never exercised by any theorem below). -/
def envMax : List ℚ → ℚ
  | [] => 0
  | v :: rest => rest.foldl max v

/-- Rational form of the line-109 threshold: `threshold_real` at a positive
maximum `M` equals `M / 1000000` (lemma `threshold_real_eq_div` below), and
the executable model uses that closed form. -/
def threshold_q (x : List ℚ) : ℚ := envMax x / 1000000

/-- Line 110 with an explicit threshold argument:
`above_thresh = x > threshold`, elementwise. -/
def above_list (x : List ℚ) (t : ℚ) : List Bool := x.map (fun v => decide (t < v))

/-- Line 110: the boolean envelope-above-threshold vector. -/
def above_thresh (x : List ℚ) : List Bool := above_list x (threshold_q x)

/-- Lines 114-119, the debounce loop body from index `i` on: `prev` is the
(possibly already overwritten) entry at `i - 1` and `last` is
`last_above_idx`.  An entry that is `true` after a `false` is forced to
`false` when `i - last < 40000`; afterwards `last_above_idx` is updated
from the (possibly overwritten) current entry. -/
def debounceAux : List Bool → Bool → Int → Int → List Bool
  | [], _, _, _ => []
  | b :: rest, prev, i, last =>
    let bn := if b && !prev && decide (i - last < 40000) then false else b
    let lastn := if bn then i else last
    bn :: debounceAux rest bn (i + 1) lastn

/-- Lines 113-119: the whole debounce pass.  The loop starts at index 1, so
index 0 is never written; `last_above_idx` starts at -1000000. -/
def debounce (l : List Bool) : List Bool :=
  match l with
  | [] => []
  | b :: rest => b :: debounceAux rest b 1 (-1000000)

/-- Line 121: `np.argwhere(np.diff(above_thresh.astype(float)) > 0)`, the
sorted indices `i` with `a[i] = false` and `a[i+1] = true`, annotated with
the index `i` of the first listed entry. -/
def risingEdges : List Bool → Nat → List Nat
  | b0 :: b1 :: rest, i => (if !b0 && b1 then [i] else []) ++ risingEdges (b1 :: rest) (i + 1)
  | _, _ => []

/-- Line 122: `np.argwhere(np.diff(above_thresh.astype(float)) < 0)`. -/
def fallingEdges : List Bool → Nat → List Nat
  | b0 :: b1 :: rest, i => (if b0 && !b1 then [i] else []) ++ fallingEdges (b1 :: rest) (i + 1)
  | _, _ => []

/-- Line 121 (`strike_start`), for a debounced above-threshold vector. -/
def strike_start (a : List Bool) : List Nat := risingEdges a 0

/-- Line 122 (`strike_end`). -/
def strike_end (a : List Bool) : List Nat := fallingEdges a 0

/-- Lines 108-126 combined for one envelope: threshold, above-threshold
vector, debounce, and the `zip(strike_start, strike_end)` pairing of
line 126 (Python's `zip` stops at the shorter list). -/
def segmentIntervals (x : List ℚ) : List (Nat × Nat) :=
  (strike_start (debounce (above_thresh x))).zip (strike_end (debounce (above_thresh x)))

/-- The source script surfaces no warnings on any path: the analysis section
of lines 103-142 contains no `raise`, no `warnings` use and no print; its
only outputs are the sliced samples and the XML files.  The collection of
warnings surfaced to the caller is therefore constantly empty. -/
def surfaced_warnings (_x : List ℚ) : List String := []

/-- Dangling-strike observable: the recording ends mid-strike exactly when
line 121 finds more starts than line 122 finds ends. -/
def dangling_strike (x : List ℚ) : Bool :=
  decide ((strike_end (debounce (above_thresh x))).length
    < (strike_start (debounce (above_thresh x))).length)

/-- Modelled from the spec (section 7): `DanglingStrikeWarning` is surfaced
to the caller when the recording ends mid-strike.  No such warning exists in
the source; this definition states the specified behaviour for comparison
with `surfaced_warnings`. -/
def warnings_spec (x : List ℚ) : List String :=
  if dangling_strike x then ["DanglingStrikeWarning"] else []

/-- Line 129, right-hand side: `sample[c][start:end + 1]`.  Python slicing
clips to the buffer, so the result is whatever of `[s, e]` exists. -/
def sliceChannel (buf : List Int) (s e : Nat) : List Int :=
  (buf.drop s).take (e + 1 - s)

/-- Line 129, the NumPy column assignment `sample_strikes[i][:, c] = v` into
a column of `rows` entries: it stores `v` when `v` has exactly `rows`
entries, broadcasts a single entry across the column, and raises a
`ValueError` (could not broadcast) otherwise -- modelled as `none`. -/
def assignColumn (rows : Nat) (col : List Int) : Option (List Int) :=
  if col.length = rows then some col
  else
    match col with
    | [v] => some (List.replicate rows v)
    | _ => none

/-- Lines 127-129 for one strike interval `(s, e)`: a fresh
`rows = e - s + 1` by `num_channels` int16 matrix whose column `c` is
assigned `sample[c][s:e + 1]`, kept as the list of its columns in channel
order; `none` when some column assignment raises. -/
def sample_strike (bufs : List (List Int)) (s e : Nat) : Option (List (List Int)) :=
  match bufs with
  | [] => some []
  | buf :: rest =>
    match assignColumn (e - s + 1) (sliceChannel buf s e), sample_strike rest s e with
    | some col, some cols => some (col :: cols)
    | _, _ => none

/-- Lines 161 and 169: the i-th detected strike (0-based) is persisted and
named with the 1-based id `i + 1`; for `n` strikes the ids are `1..n` in
detection order. -/
def sample_file_ids (n : Nat) : List Nat := (List.range n).map (fun i => i + 1)

/-- Line 108's filter coefficients: the single second-order section that
`butter(2, 0.001, btype="low", output="sos")` yields, namely the standard
order-2 Butterworth bilinear-transform design (analog prototype poles at
`warped * exp(±i 3π/4)` with `warped = 4 tan(π/2000)`) carried out in
IEEE-754 double precision; each coefficient below is the exact rational
value of the resulting double.  `butter_a0` is 1. -/
def butter_b0 : ℚ := 5813067967177741 / 2361183241434822606848

/-- Second numerator coefficient of the section (exactly `2 * butter_b0`). -/
def butter_b1 : ℚ := 5813067967177741 / 1180591620717411303424

/-- Third numerator coefficient of the section (equals `butter_b0`). -/
def butter_b2 : ℚ := 5813067967177741 / 2361183241434822606848

/-- First denominator coefficient after the leading 1 (about -1.99556). -/
def butter_a1 : ℚ := -(8987190321600235 / 4503599627370496)

/-- Second denominator coefficient (about 0.99557). -/
def butter_a2 : ℚ := 8967270088837395 / 9007199254740992

/-- `scipy.signal.sosfilt` on one second-order section in direct form II
transposed with zero initial state, as line 108 invokes it:
`y = b0 x + z1;  z1 ← b1 x - a1 y + z2;  z2 ← b2 x - a2 y`. -/
def sosfilt_sec : List ℚ → ℚ × ℚ → List ℚ
  | [], _ => []
  | x :: rest, s =>
    let y := butter_b0 * x + s.1
    y :: sosfilt_sec rest
      (butter_b1 * x - butter_a1 * y + s.2, butter_b2 * x - butter_a2 * y)

/-- Line 108: the envelope of a master channel,
`sosfilt(butter(2, 0.001, btype="low", output="sos"), np.square(sample_float))`
with `sample_float` the int16 samples cast to float. -/
def envelope_of (master : List Int) : List ℚ :=
  sosfilt_sec (master.map (fun v : Int => ((v : ℚ)) * ((v : ℚ)))) (0, 0)

/-- Test envelope with two above-threshold pulses (indices 1 and 3) whose
gap and second pulse both lie far inside the 40000-sample window. -/
def env_c1 : List ℚ := [1, 10000000, 1, 10000000, 1]

/-- Test envelope that ends while still above threshold. -/
def env_c2 : List ℚ := [1, 10000000, 10000000]

/-- Test envelope whose above-threshold samples are exactly indices 2-3. -/
def env_c4 : List ℚ := [1, 1, 10000000, 10000000, 1, 1]

/-- Test envelope that starts above threshold, dips, and rises again. -/
def env_c7 : List ℚ := [10000000, 1, 10000000]

/-- Test envelope with one isolated above-threshold sample. -/
def env_c10 : List ℚ := [1, 10000000, 1]

/-- Scenario A envelope: 1000 samples whose above-threshold regions are
exactly [100, 150] and [500, 540] (raised to 10^7 against background 1, so
the threshold 10^7 / 10^6 = 10 separates them). -/
def envA : List ℚ :=
  List.replicate 100 1 ++ List.replicate 51 10000000 ++ List.replicate 349 1 ++
    List.replicate 41 10000000 ++ List.replicate 459 1

/-- Scenario A channels: 4 channels of 1000 int16 samples each. -/
def chanA : List (List Int) :=
  (List.range 4).map (fun c => (List.range 1000).map (fun j => ((c * 1000 + j : Nat) : Int)))

/-- Master channel holding a unit impulse followed by 1500 zero samples. -/
def master_imp : List Int := (1 : Int) :: List.replicate 1500 0

/-- Positive constant `-butter_a1` of the zero-input state recurrence. -/
def lp_P : ℚ := 8987190321600235 / 4503599627370496

/-- Positive constant `butter_a2` of the zero-input state recurrence. -/
def lp_A : ℚ := 8967270088837395 / 9007199254740992

/-- Zero-input step of the section's (z1, z2) state: with input `x = 0`,
line 108's direct-form-II-transposed update collapses to
`z1 ← -a1 z1 + z2 = lp_P z1 + z2` and `z2 ← -a2 z1 = -(lp_A z1)`. -/
def zstep (s : ℚ × ℚ) : ℚ × ℚ := (lp_P * s.1 + s.2, -(lp_A * s.1))

/-- Rounding grid 2^64 for the shadow (rounded) orbit. -/
def rscale : ℚ := 18446744073709551616

/-- Round down to the 2^-64 grid. -/
def rdq (x : ℚ) : ℚ := (⌊x * rscale⌋ : ℚ) / rscale

/-- Rounded zero-input step: `zstep` followed by componentwise rounding;
the shadow orbit it generates stays within provable distance of the true
orbit and keeps all denominators at 2^64. -/
def rstep (s : ℚ × ℚ) : ℚ × ℚ := (rdq (lp_P * s.1 + s.2), rdq (-(lp_A * s.1)))

/-- Lyapunov quadratic form of the recurrence: `zstep` contracts it by the
exact factor `lp_A` (lemma `lyapQ_zstep` below). -/
def lyapQ (v : ℚ × ℚ) : ℚ := lp_A * v.1 ^ 2 + lp_P * v.1 * v.2 + v.2 ^ 2

/-- Lyapunov distance between a true state and a shadow state. -/
def errQ (s t : ℚ × ℚ) : ℚ := lyapQ (s.1 - t.1, s.2 - t.2)

/-- Invariant bound on `errQ` along the two orbits (10^-32). -/
def vbar : ℚ := 1 / 100000000000000000000000000000000

/-- Exact filter state after the first (unit) input sample of
`master_imp`: `(b1 - a1 b0, b2 - a2 b0)`. -/
def s_one : ℚ × ℚ :=
  (104602609635146228532863975028207 / 10633823966279326983230456482242756608,
   232110955270325380654170234377 / 21267647932558653966460912964485513216)

/-- Well-formed interleaving of rising-edge and falling-edge index lists
from position `i` on: edges alternate as `r1 < f1 < r2 < f2 < ...`,
possibly ending in one dangling rise with no matching fall. -/
inductive Paired : Nat → List Nat → List Nat → Prop where
  | nil (i : Nat) : Paired i [] []
  | dangling (i r : Nat) : i ≤ r → Paired i [r] []
  | cons (i r f : Nat) (R F : List Nat) :
      i ≤ r → r < f → Paired (f + 1) R F → Paired i (r :: R) (f :: F)

/-- Over exact real arithmetic, the line-109 threshold expression
`10 ^ ((10 log10 M - 60) / 10)` equals `M / 10^6` for every positive `M`. -/
theorem threshold_real_eq_div (M : ℝ) (hM : 0 < M) :
    threshold_real M = M / 1000000 := by
  unfold threshold_real
  have h1 : (10 * Real.logb 10 M - 60) / 10 = Real.logb 10 M - 6 := by ring
  have h2 : ((6 : ℕ) : ℝ) = (6 : ℝ) := by norm_num
  rw [h1, Real.rpow_sub (by norm_num : (0 : ℝ) < 10),
    Real.rpow_logb (by norm_num) (by norm_num) hM, ← h2, Real.rpow_natCast]
  norm_num

/-- The rate accumulator of the read loop always ends as `some` of the rate
of some file once at least one file is read. -/
theorem foldl_rate_some (l : List WavFile) (r0 : Nat) :
    ∃ r, l.foldl (fun _ f => some f.rate) (some r0) = some r := by
  induction l generalizing r0 with
  | nil => exact ⟨r0, rfl⟩
  | cons f rest ih => simpa using ih f.rate

/-- Length of a Python slice `buf[s : e + 1]`. -/
theorem sliceChannel_length (buf : List Int) (s e : Nat) :
    (sliceChannel buf s e).length = min (e + 1 - s) (buf.length - s) := by
  simp [sliceChannel]

/-- In-bounds slices have exactly `e - s + 1` entries. -/
theorem sliceChannel_length_of_lt (buf : List Int) (s e : Nat) (hse : s ≤ e)
    (he : e < buf.length) : (sliceChannel buf s e).length = e - s + 1 := by
  rw [sliceChannel_length]; omega

/-- Entries of a slice are the corresponding entries of the buffer. -/
theorem sliceChannel_getD (buf : List Int) (s e j : Nat)
    (hj : j < (sliceChannel buf s e).length) :
    (sliceChannel buf s e).getD j 0 = buf.getD (s + j) 0 := by
  have hj' : j < e + 1 - s := by
    have := sliceChannel_length buf s e
    omega
  simp only [sliceChannel, List.getD_eq_getElem?_getD]
  rw [List.getElem?_take_of_lt hj', List.getElem?_drop]

/-- A column of matching length is stored unchanged. -/
theorem assignColumn_of_length_eq (rows : Nat) (col : List Int)
    (h : col.length = rows) : assignColumn rows col = some col := by
  simp [assignColumn, h]

/-- A single-entry column is broadcast across the whole column. -/
theorem assignColumn_singleton (rows : Nat) (v : Int) :
    assignColumn rows [v] = some (List.replicate rows v) := by
  by_cases h : rows = 1
  · subst h; simp [assignColumn]
  · simp only [assignColumn, List.length_singleton]
    rw [if_neg (by omega)]

/-- Any other shape raises (could not broadcast). -/
theorem assignColumn_none (rows : Nat) (col : List Int)
    (hne : col.length ≠ rows) (h1 : col.length ≠ 1) :
    assignColumn rows col = none := by
  match col with
  | [] => simp only [assignColumn]; rw [if_neg hne]
  | [v] => simp at h1
  | a :: b :: rest => simp only [assignColumn]; rw [if_neg hne]

/-- Successful column assignments always fill the whole column: no
truncation can occur. -/
theorem assignColumn_some_length (rows : Nat) (col res : List Int)
    (h : assignColumn rows col = some res) : res.length = rows := by
  unfold assignColumn at h
  split at h
  next heq => cases h; exact heq
  next hne =>
    split at h
    · cases h; simp
    · simp at h

/-- Columns of an in-bounds strike sample are exactly the channel slices,
in channel order. -/
theorem sample_strike_in_bounds (bufs : List (List Int)) (s e : Nat) (hse : s ≤ e)
    (hb : ∀ buf ∈ bufs, e < buf.length) :
    ∃ M, sample_strike bufs s e = some M ∧ M.length = bufs.length ∧
      ∀ c, c < bufs.length → M.getD c [] = sliceChannel (bufs.getD c []) s e := by
  induction bufs with
  | nil => exact ⟨[], rfl, rfl, fun c hc => absurd hc (by simp)⟩
  | cons buf rest ih =>
    obtain ⟨M', hM', hlen, hcols⟩ := ih (fun b hbm => hb b (List.mem_cons_of_mem _ hbm))
    have hslice : (sliceChannel buf s e).length = e - s + 1 :=
      sliceChannel_length_of_lt buf s e hse (hb buf (List.mem_cons_self _ _))
    refine ⟨sliceChannel buf s e :: M', ?_, by simp [hlen], ?_⟩
    · simp only [sample_strike, assignColumn_of_length_eq _ _ hslice, hM']
    · intro c hc
      cases c with
      | zero => rfl
      | succ c => exact hcols c (by simpa using hc)

/-- Claim C5: for every strike interval (s, e) within bounds, the produced
strike sample has exactly e - s + 1 rows and one column per channel;
column c equals, element for element, the sub-range [s, e] of channel c's
original buffer, and the column order matches the channel order. -/
theorem C5_theorem (bufs : List (List Int)) (s e : Nat) (hse : s ≤ e)
    (hb : ∀ buf ∈ bufs, e < buf.length) :
    ∃ M, sample_strike bufs s e = some M ∧ M.length = bufs.length ∧
      ∀ c, c < bufs.length →
        (M.getD c []).length = e - s + 1 ∧
        ∀ j, j < e - s + 1 → (M.getD c []).getD j 0 = (bufs.getD c []).getD (s + j) 0 := by
  obtain ⟨M, hM, hlen, hcols⟩ := sample_strike_in_bounds bufs s e hse hb
  refine ⟨M, hM, hlen, fun c hc => ?_⟩
  have hmem : bufs.getD c [] ∈ bufs := by
    rw [List.getD_eq_getElem bufs [] hc]
    exact List.getElem_mem hc
  have hbc : e < (bufs.getD c []).length := hb _ hmem
  have hsl : (sliceChannel (bufs.getD c []) s e).length = e - s + 1 :=
    sliceChannel_length_of_lt _ s e hse hbc
  rw [hcols c hc]
  refine ⟨hsl, fun j hj => ?_⟩
  exact sliceChannel_getD _ s e j (by omega)

/-- Claim C5 witness: the theorem applied to two concrete channels and the
interval (1, 2). -/
theorem C5_witness :
    ∃ M, sample_strike [[3, 4, 5], [6, 7, 8]] 1 2 = some M ∧ M.length = 2 ∧
      ∀ c, c < 2 →
        (M.getD c []).length = 2 - 1 + 1 ∧
        ∀ j, j < 2 - 1 + 1 →
          (M.getD c []).getD j 0 = ([[3, 4, 5], [6, 7, 8]].getD c []).getD (1 + j) 0 := by
  have h := C5_theorem [[3, 4, 5], [6, 7, 8]] 1 2 (by decide) (by decide)
  simpa using h

/-- Claim C6 (amended): when a strike interval's end index lies at or
beyond a channel's buffer length, the column assignment fails with a
broadcast error (modelled as none) -- except when exactly one sample of
that channel remains (s + 1 = length), in which case NumPy silently
broadcasts that single sample across the whole column, fabricating data
instead of failing; in no case is a truncated column produced, since a
successful assignment always fills the whole column. -/
theorem C6_theorem (buf : List Int) (s e : Nat) (hse : s ≤ e)
    (he : buf.length ≤ e) :
    (s + 1 = buf.length →
      ∃ v, sliceChannel buf s e = [v] ∧
        assignColumn (e - s + 1) (sliceChannel buf s e) =
          some (List.replicate (e - s + 1) v)) ∧
    (s + 1 ≠ buf.length → assignColumn (e - s + 1) (sliceChannel buf s e) = none) ∧
    (∀ rows col res, assignColumn rows col = some res → res.length = rows) := by
  have hlen := sliceChannel_length buf s e
  refine ⟨fun hs1 => ?_, fun hs1 => ?_, assignColumn_some_length⟩
  · have h1 : (sliceChannel buf s e).length = 1 := by omega
    obtain ⟨v, hv⟩ := List.length_eq_one.mp h1
    exact ⟨v, hv, by rw [hv]; exact assignColumn_singleton _ v⟩
  · exact assignColumn_none _ _ (by omega) (by omega)

/-- Claim C6 counterexample: the interval (1, 3) against a single channel
of length 2 has its end index beyond the buffer length, yet the slicer
does not fail: the one remaining sample 8 is broadcast into the fabricated
column [8, 8, 8]. -/
theorem C6_counterexample :
    (2 : Nat) < 3 ∧ sample_strike [[7, 8]] 1 3 = some [[8, 8, 8]] :=
  ⟨by decide, by decide⟩

/-- Claim C6 witness: the amended theorem applied at buffer [5, 6] and
interval (0, 2), where the assignment does raise. -/
theorem C6_witness : assignColumn (2 - 0 + 1) (sliceChannel [5, 6] 0 2) = none :=
  (C6_theorem [5, 6] 0 2 (by decide) (by decide)).2.1 (by decide)

/-- Claim C3 (amended): the wave-read loop performs no validation at all.
On any channel set with a sample-rate mismatch (which the spec model
rejects with an error), the source loader still succeeds: it returns every
channel buffer unchanged together with the last file's sample rate, so a
rate or length mismatch is processed rather than detected as a fatal input
error (a length mismatch can only surface later, as a slicing failure). -/
theorem C3_theorem (f1 f2 : WavFile) (rest : List WavFile)
    (hrate : f1.rate ≠ f2.rate) :
    (∃ E, loader_spec (f1 :: f2 :: rest) = Except.error E) ∧
    (read_wave_forms (f1 :: f2 :: rest)).2 = (f1 :: f2 :: rest).map (fun g => g.frames) ∧
    ∃ r, (read_wave_forms (f1 :: f2 :: rest)).1 = some r := by
  refine ⟨?_, rfl, ?_⟩
  · have hred : loader_spec (f1 :: f2 :: rest) =
        if (f2 :: rest).any (fun g => g.frames.length != f1.frames.length) then
          Except.error LoaderError.ChannelMismatchError
        else if (f2 :: rest).any (fun g => g.rate != f1.rate) then
          Except.error LoaderError.RateMismatchError
        else Except.ok (f1.rate, (f1 :: f2 :: rest).map (fun g => g.frames)) := rfl
    rw [hred]
    by_cases hl : (f2 :: rest).any (fun g => g.frames.length != f1.frames.length)
    · exact ⟨LoaderError.ChannelMismatchError, by rw [if_pos hl]⟩
    · refine ⟨LoaderError.RateMismatchError, ?_⟩
      rw [if_neg hl, if_pos ?_]
      simp only [List.any_cons, Bool.or_eq_true, bne_iff_ne]
      exact Or.inl (fun h => hrate h.symm)
  · simpa [read_wave_forms] using foldl_rate_some (f2 :: rest) f1.rate

/-- Claim C3 counterexample: two channels with rates 44100 and 48000; the
spec model fails with RateMismatchError, but the source loader succeeds,
returning both buffers and the last file's rate. -/
theorem C3_counterexample :
    loader_spec [⟨44100, [0]⟩, ⟨48000, [0]⟩] =
      Except.error LoaderError.RateMismatchError ∧
    read_wave_forms [⟨44100, [0]⟩, ⟨48000, [0]⟩] = (some 48000, [[0], [0]]) :=
  ⟨rfl, rfl⟩

/-- Claim C3 witness: the amended theorem applied at the two mismatched
concrete files. -/
theorem C3_witness :
    (∃ E, loader_spec [⟨44100, [0]⟩, ⟨48000, [0]⟩] = Except.error E) ∧
    (read_wave_forms [⟨44100, [0]⟩, ⟨48000, [0]⟩]).2 = [[0], [0]] ∧
    ∃ r, (read_wave_forms [⟨44100, [0]⟩, ⟨48000, [0]⟩]).1 = some r := by
  have h := C3_theorem ⟨44100, [0]⟩ ⟨48000, [0]⟩ [] (by decide)
  simpa using h

/-- Claim C8: for every envelope with positive maximum M the computed
threshold 10 ^ ((10 log10 M - 60) / 10) equals M / 10^6 over exact real
arithmetic. -/
theorem C8_theorem (M : ℝ) (hM : 0 < M) : threshold_real M = M / 1000000 :=
  threshold_real_eq_div M hM

/-- Claim C8 witness at M = 1000000. -/
theorem C8_witness :
    (0 : ℝ) < 1000000 ∧ threshold_real 1000000 = 1000000 / 1000000 :=
  ⟨by norm_num, C8_theorem 1000000 (by norm_num)⟩

/-- Debounce rewrites entries in place and so preserves the length. -/
theorem debounceAux_length (l : List Bool) (prev : Bool) (i last : Int) :
    (debounceAux l prev i last).length = l.length := by
  induction l generalizing prev i last with
  | nil => rfl
  | cons b rest ih => simp [debounceAux, ih]

/-- The debounce pass preserves the length of the vector. -/
theorem debounce_length (l : List Bool) : (debounce l).length = l.length := by
  cases l with
  | nil => rfl
  | cons b rest => simp [debounce, debounceAux_length]

/-- The debounce loop only ever assigns `False`: every entry that is true
afterwards was already true before. -/
theorem debounceAux_getD_le (l : List Bool) (prev : Bool) (i last : Int) (j : Nat)
    (h : (debounceAux l prev i last).getD j false = true) : l.getD j false = true := by
  induction l generalizing prev i last j with
  | nil => simp [debounceAux] at h
  | cons b rest ih =>
    cases j with
    | zero =>
      simp only [debounceAux, List.getD_cons_zero] at h ⊢
      by_cases hc : (b && !prev && decide (i - last < 40000)) = true
      · rw [if_pos hc] at h; exact absurd h (by simp)
      · rwa [if_neg hc] at h
    | succ j =>
      simp only [debounceAux, List.getD_cons_succ] at h ⊢
      exact ih _ _ _ _ h

/-- The head entry is never touched by the debounce loop. -/
theorem debounce_getD_zero (l : List Bool) :
    (debounce l).getD 0 false = l.getD 0 false := by
  cases l with
  | nil => rfl
  | cons b rest => rfl

/-- Claim C10: the debounce pass only ever changes a per-sample state from
ABOVE to BELOW (it assigns only False and never touches index 0), so the
set of above-threshold indices after debounce is a subset of the raw
thresholded set: debounce never extends an ABOVE region and never creates
a new ABOVE sample. -/
theorem C10_theorem (x : List ℚ) :
    (debounce (above_thresh x)).length = (above_thresh x).length ∧
    (debounce (above_thresh x)).getD 0 false = (above_thresh x).getD 0 false ∧
    ∀ i, (debounce (above_thresh x)).getD i false = true →
      (above_thresh x).getD i false = true := by
  refine ⟨debounce_length _, debounce_getD_zero _, fun i hi => ?_⟩
  cases h : above_thresh x with
  | nil => rw [h] at hi; simp [debounce] at hi
  | cons b rest =>
    rw [h] at hi
    cases i with
    | zero => simpa [debounce] using hi
    | succ i =>
      simp only [debounce, List.getD_cons_succ] at hi ⊢
      exact debounceAux_getD_le _ _ _ _ _ hi

/-- Claim C10 witness: at the envelope [1, 10^7, 1] the debounced state at
index 1 is still above, and the theorem recovers that the raw state was. -/
theorem C10_witness : (above_thresh env_c10).getD 1 false = true :=
  (C10_theorem env_c10).2.2 1 (by decide)

/-- Weakening of the left bound of an interleaving. -/
theorem Paired.mono {i j : Nat} {R F : List Nat} (hij : i ≤ j) (h : Paired j R F) :
    Paired i R F := by
  cases h with
  | nil => exact Paired.nil i
  | dangling _ r hr => exact Paired.dangling i r (le_trans hij hr)
  | cons _ r f R F hr hrf hp => exact Paired.cons i r f R F (le_trans hij hr) hrf hp

/-- Edges of a vector that starts below interleave rise-first; inside an
above run, the next edge is a fall and everything after it interleaves. -/
theorem edges_paired_aux (rest : List Bool) :
    (∀ i, Paired i (risingEdges (false :: rest) i) (fallingEdges (false :: rest) i)) ∧
    (∀ i, (risingEdges (true :: rest) i = [] ∧ fallingEdges (true :: rest) i = []) ∨
      ∃ f F, fallingEdges (true :: rest) i = f :: F ∧ i ≤ f ∧
        Paired (f + 1) (risingEdges (true :: rest) i) F) := by
  induction rest with
  | nil =>
    constructor
    · intro i; exact Paired.nil i
    · intro i; exact Or.inl ⟨rfl, rfl⟩
  | cons b rs ih =>
    obtain ⟨ihF, ihT⟩ := ih
    constructor
    · intro i
      cases b with
      | false =>
        have hr : risingEdges (false :: false :: rs) i = risingEdges (false :: rs) (i + 1) := by
          simp [risingEdges]
        have hf : fallingEdges (false :: false :: rs) i = fallingEdges (false :: rs) (i + 1) := by
          simp [fallingEdges]
        rw [hr, hf]
        exact Paired.mono (by omega) (ihF (i + 1))
      | true =>
        have hr : risingEdges (false :: true :: rs) i = i :: risingEdges (true :: rs) (i + 1) := by
          simp [risingEdges]
        have hf : fallingEdges (false :: true :: rs) i = fallingEdges (true :: rs) (i + 1) := by
          simp [fallingEdges]
        rw [hr, hf]
        rcases ihT (i + 1) with ⟨hre, hfe⟩ | ⟨f, F, hfe, hif, hp⟩
        · rw [hre, hfe]; exact Paired.dangling i i le_rfl
        · rw [hfe]
          exact Paired.cons i i f _ F le_rfl (by omega) hp
    · intro i
      cases b with
      | false =>
        have hr : risingEdges (true :: false :: rs) i = risingEdges (false :: rs) (i + 1) := by
          simp [risingEdges]
        have hf : fallingEdges (true :: false :: rs) i =
            i :: fallingEdges (false :: rs) (i + 1) := by
          simp [fallingEdges]
        refine Or.inr ⟨i, fallingEdges (false :: rs) (i + 1), hf, le_rfl, ?_⟩
        rw [hr]
        exact Paired.mono (by omega) (ihF (i + 1))
      | true =>
        have hr : risingEdges (true :: true :: rs) i = risingEdges (true :: rs) (i + 1) := by
          simp [risingEdges]
        have hf : fallingEdges (true :: true :: rs) i = fallingEdges (true :: rs) (i + 1) := by
          simp [fallingEdges]
        rw [hr, hf]
        rcases ihT (i + 1) with ⟨hre, hfe⟩ | ⟨f, F, hfe, hif, hp⟩
        · exact Or.inl ⟨hre, hfe⟩
        · exact Or.inr ⟨f, F, hfe, by omega, hp⟩

/-- Every zipped pair of an interleaving is a genuine interval: its start
is at least the left bound and strictly below its end. -/
theorem paired_zip_fst {i : Nat} {R F : List Nat} (h : Paired i R F) :
    ∀ p ∈ R.zip F, i ≤ p.1 ∧ p.1 < p.2 := by
  induction h with
  | nil => simp
  | dangling i r hr => simp
  | cons i r f R F hr hrf hp ih =>
    intro p hp'
    rw [List.zip_cons_cons] at hp'
    rcases List.mem_cons.mp hp' with rfl | hmem
    · exact ⟨hr, hrf⟩
    · have h1 := ih p hmem
      exact ⟨by omega, h1.2⟩

/-- Zipped pairs of an interleaving are pairwise disjoint and ordered:
each interval ends strictly before the next one starts. -/
theorem paired_zip_pairwise {i : Nat} {R F : List Nat} (h : Paired i R F) :
    (R.zip F).Pairwise (fun p q => p.2 < q.1) := by
  induction h with
  | nil => simp
  | dangling i r hr => simp
  | cons i r f R F hr hrf hp ih =>
    rw [List.zip_cons_cons]
    refine List.Pairwise.cons (fun q hq => ?_) ih
    have h1 := (paired_zip_fst hp q hq).1
    omega

/-- Transition counting: rises plus an initial above equal falls plus a
final above.  Stated with the explicit start entry and `getLastD`. -/
theorem edges_count (rest : List Bool) :
    ∀ (prev : Bool) (i : Nat),
      (risingEdges (prev :: rest) i).length + prev.toNat =
        (fallingEdges (prev :: rest) i).length + ((prev :: rest).getLastD false).toNat := by
  induction rest with
  | nil =>
    intro prev i
    cases prev <;> simp [risingEdges, fallingEdges]
  | cons b rs ih =>
    intro prev i
    have h := ih b (i + 1)
    have hlast : (prev :: b :: rs).getLastD false = ((b :: rs).getLastD false) := by
      simp [List.getLastD_cons]
    rw [hlast]
    cases prev <;> cases b <;>
      simp only [risingEdges, fallingEdges] at h ⊢ <;>
      simp at h ⊢ <;>
      omega

/-- Falling edges lie between the start index and two before the end. -/
theorem fallingEdges_bounds (a : List Bool) :
    ∀ (i : Nat), ∀ f ∈ fallingEdges a i, i ≤ f ∧ f + 2 ≤ i + a.length := by
  induction a with
  | nil => intro i f hf; simp [fallingEdges] at hf
  | cons b0 rest ih =>
    intro i f hf
    cases rest with
    | nil => simp [fallingEdges] at hf
    | cons b1 rs =>
      rw [show fallingEdges (b0 :: b1 :: rs) i =
        (if b0 && !b1 then [i] else []) ++ fallingEdges (b1 :: rs) (i + 1) from rfl] at hf
      rcases List.mem_append.mp hf with h1 | h2
      · have hfi : f = i := by
          by_cases hc : (b0 && !b1) = true
          · rw [if_pos hc] at h1; simpa using h1
          · rw [if_neg hc] at h1; simp at h1
        subst hfi
        simp only [List.length_cons]
        omega
      · have h3 := ih (i + 1) f h2
        simp only [List.length_cons] at h3 ⊢
        omega

/-- Claim C7 counterexample: an envelope that starts above threshold makes
the first falling edge precede the first rising edge, so the emitted
interval is (1, 0): its start exceeds its end, refuting the unconditional
claim. -/
theorem C7_counterexample :
    segmentIntervals env_c7 = [(1, 0)] ∧ ¬((1 : Nat) ≤ 0) :=
  ⟨by decide, by decide⟩

/-- Claim C7 (amended): for every envelope whose first sample is not above
threshold, the emitted strike intervals satisfy start < end (hence
start ≤ end) within each pair, are pairwise non-overlapping, and are
strictly increasing in start index across the sequence (each interval ends
strictly before the next begins).  The original unconditional claim fails
for envelopes whose first sample is above threshold. -/
theorem C7_theorem (x : List ℚ)
    (h0 : (above_thresh x).getD 0 false = false) :
    (∀ p ∈ segmentIntervals x, p.1 < p.2) ∧
    (segmentIntervals x).Pairwise (fun p q => p.2 < q.1) := by
  have hseg : segmentIntervals x =
      (risingEdges (debounce (above_thresh x)) 0).zip
        (fallingEdges (debounce (above_thresh x)) 0) := rfl
  cases ha : debounce (above_thresh x) with
  | nil =>
    rw [hseg, ha]
    exact ⟨by simp [risingEdges], by simp [risingEdges, fallingEdges]⟩
  | cons b rest =>
    have hb : b = false := by
      have h1 := debounce_getD_zero (above_thresh x)
      rw [ha, h0] at h1
      simpa using h1
    subst hb
    have hp := (edges_paired_aux rest).1 0
    rw [hseg, ha]
    exact ⟨fun p hmem => (paired_zip_fst hp p hmem).2, paired_zip_pairwise hp⟩

/-- Claim C7 witness: the amended theorem at the envelope [1, 10^7, 1]. -/
theorem C7_witness :
    (∀ p ∈ segmentIntervals env_c10, p.1 < p.2) ∧
    (segmentIntervals env_c10).Pairwise (fun p q => p.2 < q.1) :=
  C7_theorem env_c10 (by decide)

/-- Claim C2 counterexample: at the envelope [1, 10^7, 10^7] the recording
ends mid-strike (one dangling start, zero ends, zero emitted intervals);
the spec model surfaces DanglingStrikeWarning, but the code's set of
surfaced warnings is empty on every input -- the condition is silent. -/
theorem C2_counterexample :
    dangling_strike env_c2 = true ∧
    warnings_spec env_c2 = ["DanglingStrikeWarning"] ∧
    surfaced_warnings env_c2 = [] ∧
    segmentIntervals env_c2 = [] :=
  ⟨by decide, by decide, rfl, by decide⟩

/-- Claim C2 (amended): for every envelope whose debounced state starts
below threshold and ends above it (the take stops mid-strike), the
segmenter finds exactly one more strike start than strike ends; the zip
pairing of line 126 drops the dangling start (exactly as many intervals as
ends are emitted), every emitted interval is well formed with its end a
genuine ABOVE-to-BELOW transition strictly before the final sample (no end
is fabricated at end-of-buffer), and the pipeline does not crash -- but no
warning is surfaced to the caller (the source has no warning mechanism),
contrary to the claimed DanglingStrikeWarning. -/
theorem C2_theorem (x : List ℚ)
    (h0 : (debounce (above_thresh x)).getD 0 false = false)
    (hL : (debounce (above_thresh x)).getLastD false = true) :
    (strike_start (debounce (above_thresh x))).length =
      (strike_end (debounce (above_thresh x))).length + 1 ∧
    (segmentIntervals x).length = (strike_end (debounce (above_thresh x))).length ∧
    (∀ p ∈ segmentIntervals x,
      p.1 < p.2 ∧ p.2 + 2 ≤ (debounce (above_thresh x)).length) ∧
    surfaced_warnings x = [] := by
  have hseg : segmentIntervals x =
      (risingEdges (debounce (above_thresh x)) 0).zip
        (fallingEdges (debounce (above_thresh x)) 0) := rfl
  cases ha : debounce (above_thresh x) with
  | nil => rw [ha] at hL; simp [List.getLastD] at hL
  | cons b rest =>
    have hb : b = false := by
      have h1 := h0
      rw [ha] at h1
      simpa using h1
    subst hb
    rw [ha] at hL
    have hcount := edges_count rest false 0
    rw [hL] at hcount
    simp only [Bool.toNat_false, Bool.toNat_true, Nat.add_zero] at hcount
    have hp := (edges_paired_aux rest).1 0
    have hstart : strike_start (false :: rest) = risingEdges (false :: rest) 0 := rfl
    have hend : strike_end (false :: rest) = fallingEdges (false :: rest) 0 := rfl
    refine ⟨?_, ?_, ?_, rfl⟩
    · rw [hstart, hend]; exact hcount
    · rw [hseg, ha, List.length_zip, hstart, hend] at *
      omega
    · intro p hmem
      rw [hseg, ha] at hmem
      refine ⟨(paired_zip_fst hp p hmem).2, ?_⟩
      have hpf : p.2 ∈ fallingEdges (false :: rest) 0 := (List.of_mem_zip hmem).2
      have := (fallingEdges_bounds (false :: rest) 0 p.2 hpf).2
      omega

/-- Exposing the head of a nonempty replicated block inside an append. -/
theorem replicate_succ_append (n : Nat) (c : Bool) (ys : List Bool) :
    List.replicate (n + 1) c ++ ys = c :: (List.replicate n c ++ ys) := by
  rw [List.replicate_succ, List.cons_append]

/-- One loop iteration on a below entry: nothing changes. -/
theorem debounceAux_cons_false (rest : List Bool) (prev : Bool) (i last : Int) :
    debounceAux (false :: rest) prev i last = false :: debounceAux rest false (i + 1) last := by
  simp [debounceAux]

/-- One loop iteration on an above entry with the previous entry above:
no BELOW-to-ABOVE transition, so the entry stays and `last_above_idx`
moves to it. -/
theorem debounceAux_cons_true_prevT (rest : List Bool) (i last : Int) :
    debounceAux (true :: rest) true i last = true :: debounceAux rest true (i + 1) i := by
  simp [debounceAux]

/-- One loop iteration on a BELOW-to-ABOVE transition outside the
re-trigger window: the entry is kept. -/
theorem debounceAux_cons_true_kept (rest : List Bool) (i last : Int)
    (h : ¬(i - last < 40000)) :
    debounceAux (true :: rest) false i last = true :: debounceAux rest true (i + 1) i := by
  simp [debounceAux, h]

/-- One loop iteration on a BELOW-to-ABOVE transition inside the
re-trigger window: the entry is suppressed and the state is unchanged. -/
theorem debounceAux_cons_true_supp (rest : List Bool) (i last : Int)
    (h : i - last < 40000) :
    debounceAux (true :: rest) false i last = false :: debounceAux rest false (i + 1) last := by
  simp [debounceAux, h]

/-- A run of below entries passes through the loop unchanged when entered
with a below previous entry. -/
theorem debounceAux_false_block (n : Nat) (ys : List Bool) (i last : Int) :
    debounceAux (List.replicate n false ++ ys) false i last =
      List.replicate n false ++ debounceAux ys false (i + n) last := by
  induction n generalizing i with
  | zero => simp
  | succ n ih =>
    have hx : i + 1 + (n : Int) = i + ((n : Int) + 1) := by ring
    rw [replicate_succ_append, debounceAux_cons_false, ih (i + 1), hx]
    simp only [replicate_succ_append, Nat.cast_add_one]

/-- A nonempty run of below entries passes through unchanged whatever the
previous entry was. -/
theorem debounceAux_false_block_any (n : Nat) (ys : List Bool) (prev : Bool) (i last : Int) :
    debounceAux (List.replicate (n + 1) false ++ ys) prev i last =
      List.replicate (n + 1) false ++ debounceAux ys false (i + (n + 1)) last := by
  have hx : i + 1 + (n : Int) = i + ((n : Int) + 1) := by ring
  rw [replicate_succ_append, debounceAux_cons_false, debounceAux_false_block n ys (i + 1) last, hx]
  simp only [replicate_succ_append, Nat.cast_add_one]

/-- A trailing run of below entries is unchanged. -/
theorem debounceAux_false_tail (n : Nat) (prev : Bool) (i last : Int) :
    debounceAux (List.replicate n false) prev i last = List.replicate n false := by
  cases n with
  | zero => rfl
  | succ n =>
    have h := debounceAux_false_block_any n [] prev i last
    rw [List.append_nil] at h
    rw [h]
    simp [debounceAux]

/-- An above run entered while already above passes through unchanged; the
last-above index ends at the run's final position. -/
theorem debounceAux_true_prevT (p : Nat) (ys : List Bool) (i last : Int) :
    debounceAux (List.replicate (p + 1) true ++ ys) true i last =
      List.replicate (p + 1) true ++ debounceAux ys true (i + (p + 1)) (i + p) := by
  induction p generalizing i last with
  | zero =>
    rw [replicate_succ_append, debounceAux_cons_true_prevT]
    simp
  | succ p ih =>
    have hx1 : i + 1 + ((p : Int) + 1) = i + (((p : Int) + 1) + 1) := by ring
    have hx2 : i + 1 + (p : Int) = i + ((p : Int) + 1) := by ring
    rw [replicate_succ_append, debounceAux_cons_true_prevT, ih (i + 1) i, hx1, hx2]
    simp only [replicate_succ_append, Nat.cast_add_one]

/-- An above run entered from below with the re-trigger window expired is
kept in full, and `last_above_idx` then tracks the run. -/
theorem debounceAux_true_kept (p : Nat) (ys : List Bool) (i last : Int)
    (h : last + 40000 ≤ i) :
    debounceAux (List.replicate (p + 1) true ++ ys) false i last =
      List.replicate (p + 1) true ++ debounceAux ys true (i + (p + 1)) (i + p) := by
  rw [replicate_succ_append, debounceAux_cons_true_kept _ _ _ (by omega)]
  cases p with
  | zero => simp
  | succ p =>
    have hx1 : i + 1 + ((p : Int) + 1) = i + (((p : Int) + 1) + 1) := by ring
    have hx2 : i + 1 + (p : Int) = i + ((p : Int) + 1) := by ring
    rw [debounceAux_true_prevT p ys (i + 1) i, hx1, hx2]
    simp only [replicate_succ_append, Nat.cast_add_one]

/-- An above run entered from below entirely inside the re-trigger window
is suppressed sample by sample (each suppressed entry leaves the previous
entry below, so the transition test fires again at the next entry), and
`last_above_idx` never advances. -/
theorem debounceAux_true_supp (p : Nat) (ys : List Bool) (i last : Int)
    (h : i + p < last + 40000) :
    debounceAux (List.replicate (p + 1) true ++ ys) false i last =
      List.replicate (p + 1) false ++ debounceAux ys false (i + (p + 1)) last := by
  induction p generalizing i with
  | zero =>
    rw [replicate_succ_append, debounceAux_cons_true_supp _ _ _ (by omega),
      replicate_succ_append]
    simp
  | succ p ih =>
    have hx1 : i + 1 + ((p : Int) + 1) = i + (((p : Int) + 1) + 1) := by ring
    rw [replicate_succ_append, debounceAux_cons_true_supp _ _ _ (by omega),
      ih (i + 1) (by omega), hx1]
    simp only [replicate_succ_append, Nat.cast_add_one]

/-- Single unfolding step of the rising-edge scan. -/
theorem risingEdges_cons_cons (b0 b1 : Bool) (rest : List Bool) (i : Nat) :
    risingEdges (b0 :: b1 :: rest) i =
      (if !b0 && b1 then [i] else []) ++ risingEdges (b1 :: rest) (i + 1) := rfl

/-- Single unfolding step of the falling-edge scan. -/
theorem fallingEdges_cons_cons (b0 b1 : Bool) (rest : List Bool) (i : Nat) :
    fallingEdges (b0 :: b1 :: rest) i =
      (if b0 && !b1 then [i] else []) ++ fallingEdges (b1 :: rest) (i + 1) := rfl

/-- No edge occurs strictly inside a constant run: the scan skips to the
run's last entry. -/
theorem risingEdges_skip (n : Nat) (c : Bool) (ys : List Bool) (i : Nat) :
    risingEdges (List.replicate (n + 1) c ++ ys) i = risingEdges (c :: ys) (i + n) := by
  induction n generalizing i with
  | zero => simp [replicate_succ_append]
  | succ n ih =>
    rw [replicate_succ_append, replicate_succ_append, risingEdges_cons_cons]
    have hcc : (!c && c) = false := by cases c <;> rfl
    rw [hcc]
    simp only [Bool.false_eq_true, if_false, List.nil_append]
    rw [← replicate_succ_append, ih (i + 1)]
    congr 1
    omega

/-- Falling-edge version of the skip lemma. -/
theorem fallingEdges_skip (n : Nat) (c : Bool) (ys : List Bool) (i : Nat) :
    fallingEdges (List.replicate (n + 1) c ++ ys) i = fallingEdges (c :: ys) (i + n) := by
  induction n generalizing i with
  | zero => simp [replicate_succ_append]
  | succ n ih =>
    rw [replicate_succ_append, replicate_succ_append, fallingEdges_cons_cons]
    have hcc : (c && !c) = false := by cases c <;> rfl
    rw [hcc]
    simp only [Bool.false_eq_true, if_false, List.nil_append]
    rw [← replicate_succ_append, ih (i + 1)]
    congr 1
    omega

/-- Constant vectors have no rising edges. -/
theorem risingEdges_replicate (n : Nat) (c : Bool) (i : Nat) :
    risingEdges (List.replicate n c) i = [] := by
  cases n with
  | zero => rfl
  | succ m =>
    have h := risingEdges_skip m c [] i
    rw [List.append_nil] at h
    rw [h]
    rfl

/-- Constant vectors have no falling edges. -/
theorem fallingEdges_replicate (n : Nat) (c : Bool) (i : Nat) :
    fallingEdges (List.replicate n c) i = [] := by
  cases n with
  | zero => rfl
  | succ m =>
    have h := fallingEdges_skip m c [] i
    rw [List.append_nil] at h
    rw [h]
    rfl

/-- A below run followed by an above entry has one rising edge, at the
run's last position. -/
theorem risingEdges_FT (a : Nat) (ha : 1 ≤ a) (ys : List Bool) (i : Nat) :
    risingEdges (List.replicate a false ++ (true :: ys)) i =
      (i + a - 1) :: risingEdges (true :: ys) (i + a) := by
  obtain ⟨m, rfl⟩ : ∃ m, a = m + 1 := ⟨a - 1, by omega⟩
  rw [risingEdges_skip m false (true :: ys) i, risingEdges_cons_cons]
  have h1 : i + (m + 1) - 1 = i + m := by omega
  have h2 : i + m + 1 = i + (m + 1) := by omega
  rw [h1, h2]
  rfl

/-- A below run followed by an above entry has no falling edge there. -/
theorem fallingEdges_FT (a : Nat) (ha : 1 ≤ a) (ys : List Bool) (i : Nat) :
    fallingEdges (List.replicate a false ++ (true :: ys)) i =
      fallingEdges (true :: ys) (i + a) := by
  obtain ⟨m, rfl⟩ : ∃ m, a = m + 1 := ⟨a - 1, by omega⟩
  rw [fallingEdges_skip m false (true :: ys) i, fallingEdges_cons_cons]
  have h2 : i + m + 1 = i + (m + 1) := by omega
  rw [h2]
  rfl

/-- An above run followed by a below entry has one falling edge, at the
run's last position. -/
theorem fallingEdges_TF (p : Nat) (hp : 1 ≤ p) (ys : List Bool) (i : Nat) :
    fallingEdges (List.replicate p true ++ (false :: ys)) i =
      (i + p - 1) :: fallingEdges (false :: ys) (i + p) := by
  obtain ⟨m, rfl⟩ : ∃ m, p = m + 1 := ⟨p - 1, by omega⟩
  rw [fallingEdges_skip m true (false :: ys) i, fallingEdges_cons_cons]
  have h1 : i + (m + 1) - 1 = i + m := by omega
  have h2 : i + m + 1 = i + (m + 1) := by omega
  rw [h1, h2]
  rfl

/-- An above run followed by a below entry has no rising edge there. -/
theorem risingEdges_TF (p : Nat) (hp : 1 ≤ p) (ys : List Bool) (i : Nat) :
    risingEdges (List.replicate p true ++ (false :: ys)) i =
      risingEdges (false :: ys) (i + p) := by
  obtain ⟨m, rfl⟩ : ∃ m, p = m + 1 := ⟨p - 1, by omega⟩
  rw [risingEdges_skip m true (false :: ys) i, risingEdges_cons_cons]
  have h2 : i + m + 1 = i + (m + 1) := by omega
  rw [h2]
  rfl

/-- Two adjacent below runs have no edge at their boundary. -/
theorem risingEdges_FF (g : Nat) (hg : 1 ≤ g) (ys : List Bool) (i : Nat) :
    risingEdges (List.replicate g false ++ (false :: ys)) i =
      risingEdges (false :: ys) (i + g) := by
  obtain ⟨m, rfl⟩ : ∃ m, g = m + 1 := ⟨g - 1, by omega⟩
  rw [risingEdges_skip m false (false :: ys) i, risingEdges_cons_cons]
  have h2 : i + m + 1 = i + (m + 1) := by omega
  rw [h2]
  rfl

/-- Two adjacent below runs have no falling edge at their boundary. -/
theorem fallingEdges_FF (g : Nat) (hg : 1 ≤ g) (ys : List Bool) (i : Nat) :
    fallingEdges (List.replicate g false ++ (false :: ys)) i =
      fallingEdges (false :: ys) (i + g) := by
  obtain ⟨m, rfl⟩ : ∃ m, g = m + 1 := ⟨g - 1, by omega⟩
  rw [fallingEdges_skip m false (false :: ys) i, fallingEdges_cons_cons]
  have h2 : i + m + 1 = i + (m + 1) := by omega
  rw [h2]
  rfl

/-- Unfolding the debounce wrapper on a nonempty vector. -/
theorem debounce_cons (b : Bool) (rest : List Bool) :
    debounce (b :: rest) = b :: debounceAux rest b 1 (-1000000) := rfl

/-- A single-pulse pattern survives debouncing unchanged: the pulse is the
first BELOW-to-ABOVE transition and `last_above_idx` is still at its
initial -1000000, far outside the 40000-sample window. -/
theorem debounce_one_pulse (a p t : Nat) (ha : 1 ≤ a) (hp : 1 ≤ p) :
    debounce (List.replicate a false ++ (List.replicate p true ++ List.replicate t false)) =
      List.replicate a false ++ (List.replicate p true ++ List.replicate t false) := by
  obtain ⟨a1, rfl⟩ : ∃ m, a = m + 1 := ⟨a - 1, by omega⟩
  obtain ⟨p1, rfl⟩ : ∃ m, p = m + 1 := ⟨p - 1, by omega⟩
  rw [replicate_succ_append, debounce_cons,
    debounceAux_false_block a1 _ 1 (-1000000)]
  have hk := debounceAux_true_kept p1 (List.replicate t false) (1 + (a1 : Int)) (-1000000)
    (by omega)
  rw [hk, debounceAux_false_tail]

/-- Debouncing a two-pulse pattern whose second pulse lies entirely inside
the 40000-sample window after the first pulse: the whole second pulse is
suppressed, sample by sample. -/
theorem debounce_two_pulses_close (a p g q t : Nat) (ha : 1 ≤ a) (hp : 1 ≤ p)
    (hg : 1 ≤ g) (hq : 1 ≤ q) (hc : g + q < 40000) :
    debounce (List.replicate a false ++ (List.replicate p true ++ (List.replicate g false ++
      (List.replicate q true ++ List.replicate t false)))) =
      List.replicate a false ++ (List.replicate p true ++ (List.replicate g false ++
        (List.replicate q false ++ List.replicate t false))) := by
  obtain ⟨a1, rfl⟩ : ∃ m, a = m + 1 := ⟨a - 1, by omega⟩
  obtain ⟨p1, rfl⟩ : ∃ m, p = m + 1 := ⟨p - 1, by omega⟩
  obtain ⟨g1, rfl⟩ : ∃ m, g = m + 1 := ⟨g - 1, by omega⟩
  obtain ⟨q1, rfl⟩ : ∃ m, q = m + 1 := ⟨q - 1, by omega⟩
  rw [replicate_succ_append, debounce_cons,
    debounceAux_false_block a1 _ 1 (-1000000)]
  have hk := debounceAux_true_kept p1
    (List.replicate (g1 + 1) false ++ (List.replicate (q1 + 1) true ++ List.replicate t false))
    (1 + (a1 : Int)) (-1000000) (by omega)
  rw [hk]
  rw [debounceAux_false_block_any g1
    (List.replicate (q1 + 1) true ++ List.replicate t false) true
    (1 + (a1 : Int) + ((p1 : Int) + 1)) (1 + (a1 : Int) + (p1 : Int))]
  have hs := debounceAux_true_supp q1 (List.replicate t false)
    (1 + (a1 : Int) + ((p1 : Int) + 1) + ((g1 : Int) + 1)) (1 + (a1 : Int) + (p1 : Int))
    (by omega)
  rw [hs, debounceAux_false_tail]
  simp only [replicate_succ_append]

/-- Debouncing a two-pulse pattern whose second pulse starts at least
40000 samples after the first pulse's end: both pulses are kept. -/
theorem debounce_two_pulses_far (a p g q t : Nat) (ha : 1 ≤ a) (hp : 1 ≤ p)
    (hg : 1 ≤ g) (hq : 1 ≤ q) (hf : 39999 ≤ g) :
    debounce (List.replicate a false ++ (List.replicate p true ++ (List.replicate g false ++
      (List.replicate q true ++ List.replicate t false)))) =
      List.replicate a false ++ (List.replicate p true ++ (List.replicate g false ++
        (List.replicate q true ++ List.replicate t false))) := by
  obtain ⟨a1, rfl⟩ : ∃ m, a = m + 1 := ⟨a - 1, by omega⟩
  obtain ⟨p1, rfl⟩ : ∃ m, p = m + 1 := ⟨p - 1, by omega⟩
  obtain ⟨g1, rfl⟩ : ∃ m, g = m + 1 := ⟨g - 1, by omega⟩
  obtain ⟨q1, rfl⟩ : ∃ m, q = m + 1 := ⟨q - 1, by omega⟩
  rw [replicate_succ_append, debounce_cons,
    debounceAux_false_block a1 _ 1 (-1000000)]
  have hk := debounceAux_true_kept p1
    (List.replicate (g1 + 1) false ++ (List.replicate (q1 + 1) true ++ List.replicate t false))
    (1 + (a1 : Int)) (-1000000) (by omega)
  rw [hk]
  rw [debounceAux_false_block_any g1
    (List.replicate (q1 + 1) true ++ List.replicate t false) true
    (1 + (a1 : Int) + ((p1 : Int) + 1)) (1 + (a1 : Int) + (p1 : Int))]
  have hk2 := debounceAux_true_kept q1 (List.replicate t false)
    (1 + (a1 : Int) + ((p1 : Int) + 1) + ((g1 : Int) + 1)) (1 + (a1 : Int) + (p1 : Int))
    (by omega)
  rw [hk2, debounceAux_false_tail]

/-- Strike starts and ends of a single-pulse vector whose above run covers
indices [a, a + p - 1]: the scan reports start a - 1 and end a + p - 1. -/
theorem edges_one_pulse (a p t : Nat) (ha : 1 ≤ a) (hp : 1 ≤ p) (ht : 1 ≤ t) :
    strike_start (List.replicate a false ++ (List.replicate p true ++ List.replicate t false)) =
      [a - 1] ∧
    strike_end (List.replicate a false ++ (List.replicate p true ++ List.replicate t false)) =
      [a + p - 1] := by
  obtain ⟨p1, rfl⟩ : ∃ m, p = m + 1 := ⟨p - 1, by omega⟩
  obtain ⟨t1, rfl⟩ : ∃ m, t = m + 1 := ⟨t - 1, by omega⟩
  constructor
  · show risingEdges _ 0 = _
    rw [replicate_succ_append p1 true, risingEdges_FT a ha _ 0,
      ← replicate_succ_append p1 true,
      show List.replicate (t1 + 1) false = false :: List.replicate t1 false from rfl,
      risingEdges_TF (p1 + 1) (by omega) _ (0 + a),
      show (false :: List.replicate t1 false : List Bool) = List.replicate (t1 + 1) false
        from rfl,
      risingEdges_replicate]
    simp
  · show fallingEdges _ 0 = _
    rw [replicate_succ_append p1 true, fallingEdges_FT a ha _ 0,
      ← replicate_succ_append p1 true,
      show List.replicate (t1 + 1) false = false :: List.replicate t1 false from rfl,
      fallingEdges_TF (p1 + 1) (by omega) _ (0 + a),
      show (false :: List.replicate t1 false : List Bool) = List.replicate (t1 + 1) false
        from rfl,
      fallingEdges_replicate]
    simp

/-- Edges of the close-case debounce result: one pulse, the suppressed
second pulse having become below-threshold runs. -/
theorem edges_two_pulses_close (a p g q t : Nat) (ha : 1 ≤ a) (hp : 1 ≤ p)
    (hg : 1 ≤ g) (hq : 1 ≤ q) (ht : 1 ≤ t) :
    strike_start (List.replicate a false ++ (List.replicate p true ++ (List.replicate g false ++
      (List.replicate q false ++ List.replicate t false)))) = [a - 1] ∧
    strike_end (List.replicate a false ++ (List.replicate p true ++ (List.replicate g false ++
      (List.replicate q false ++ List.replicate t false)))) = [a + p - 1] := by
  obtain ⟨g1, rfl⟩ : ∃ m, g = m + 1 := ⟨g - 1, by omega⟩
  obtain ⟨q1, rfl⟩ : ∃ m, q = m + 1 := ⟨q - 1, by omega⟩
  obtain ⟨t1, rfl⟩ : ∃ m, t = m + 1 := ⟨t - 1, by omega⟩
  obtain ⟨p1, rfl⟩ : ∃ m, p = m + 1 := ⟨p - 1, by omega⟩
  constructor
  · show risingEdges _ 0 = _
    rw [replicate_succ_append p1 true, risingEdges_FT a ha _ 0,
      ← replicate_succ_append p1 true,
      replicate_succ_append g1 false,
      risingEdges_TF (p1 + 1) (by omega) _ (0 + a),
      ← replicate_succ_append g1 false,
      replicate_succ_append q1 false,
      risingEdges_FF (g1 + 1) (by omega) _ (0 + a + (p1 + 1)),
      ← replicate_succ_append q1 false,
      show List.replicate (t1 + 1) false = false :: List.replicate t1 false from rfl,
      risingEdges_FF (q1 + 1) (by omega) _ (0 + a + (p1 + 1) + (g1 + 1)),
      show (false :: List.replicate t1 false : List Bool) = List.replicate (t1 + 1) false
        from rfl,
      risingEdges_replicate]
    simp
  · show fallingEdges _ 0 = _
    rw [replicate_succ_append p1 true, fallingEdges_FT a ha _ 0,
      ← replicate_succ_append p1 true,
      replicate_succ_append g1 false,
      fallingEdges_TF (p1 + 1) (by omega) _ (0 + a),
      ← replicate_succ_append g1 false,
      replicate_succ_append q1 false,
      fallingEdges_FF (g1 + 1) (by omega) _ (0 + a + (p1 + 1)),
      ← replicate_succ_append q1 false,
      show List.replicate (t1 + 1) false = false :: List.replicate t1 false from rfl,
      fallingEdges_FF (q1 + 1) (by omega) _ (0 + a + (p1 + 1) + (g1 + 1)),
      show (false :: List.replicate t1 false : List Bool) = List.replicate (t1 + 1) false
        from rfl,
      fallingEdges_replicate]
    simp

/-- Edges of the far-case debounce result: both pulses intact. -/
theorem edges_two_pulses_far (a p g q t : Nat) (ha : 1 ≤ a) (hp : 1 ≤ p)
    (hg : 1 ≤ g) (hq : 1 ≤ q) (ht : 1 ≤ t) :
    strike_start (List.replicate a false ++ (List.replicate p true ++ (List.replicate g false ++
      (List.replicate q true ++ List.replicate t false)))) = [a - 1, a + p + g - 1] ∧
    strike_end (List.replicate a false ++ (List.replicate p true ++ (List.replicate g false ++
      (List.replicate q true ++ List.replicate t false)))) = [a + p - 1, a + p + g + q - 1] := by
  obtain ⟨g1, rfl⟩ : ∃ m, g = m + 1 := ⟨g - 1, by omega⟩
  obtain ⟨q1, rfl⟩ : ∃ m, q = m + 1 := ⟨q - 1, by omega⟩
  obtain ⟨t1, rfl⟩ : ∃ m, t = m + 1 := ⟨t - 1, by omega⟩
  obtain ⟨p1, rfl⟩ : ∃ m, p = m + 1 := ⟨p - 1, by omega⟩
  constructor
  · show risingEdges _ 0 = _
    rw [replicate_succ_append p1 true, risingEdges_FT a ha _ 0,
      ← replicate_succ_append p1 true,
      replicate_succ_append g1 false,
      risingEdges_TF (p1 + 1) (by omega) _ (0 + a),
      ← replicate_succ_append g1 false,
      replicate_succ_append q1 true,
      risingEdges_FT (g1 + 1) (by omega) _ (0 + a + (p1 + 1)),
      ← replicate_succ_append q1 true,
      show List.replicate (t1 + 1) false = false :: List.replicate t1 false from rfl,
      risingEdges_TF (q1 + 1) (by omega) _ (0 + a + (p1 + 1) + (g1 + 1)),
      show (false :: List.replicate t1 false : List Bool) = List.replicate (t1 + 1) false
        from rfl,
      risingEdges_replicate]
    simp
  · show fallingEdges _ 0 = _
    rw [replicate_succ_append p1 true, fallingEdges_FT a ha _ 0,
      ← replicate_succ_append p1 true,
      replicate_succ_append g1 false,
      fallingEdges_TF (p1 + 1) (by omega) _ (0 + a),
      ← replicate_succ_append g1 false,
      replicate_succ_append q1 true,
      fallingEdges_FT (g1 + 1) (by omega) _ (0 + a + (p1 + 1)),
      ← replicate_succ_append q1 true,
      show List.replicate (t1 + 1) false = false :: List.replicate t1 false from rfl,
      fallingEdges_TF (q1 + 1) (by omega) _ (0 + a + (p1 + 1) + (g1 + 1)),
      show (false :: List.replicate t1 false : List Bool) = List.replicate (t1 + 1) false
        from rfl,
      fallingEdges_replicate]
    simp

/-- Segmentation of any envelope whose above-threshold vector is a single
interior pulse over indices [a, a + p - 1]. -/
theorem segment_one_pulse (x : List ℚ) (a p t : Nat)
    (hx : above_thresh x =
      List.replicate a false ++ (List.replicate p true ++ List.replicate t false))
    (ha : 1 ≤ a) (hp : 1 ≤ p) (ht : 1 ≤ t) :
    segmentIntervals x = [(a - 1, a + p - 1)] := by
  have hseg : segmentIntervals x =
      (strike_start (debounce (above_thresh x))).zip
        (strike_end (debounce (above_thresh x))) := rfl
  rw [hseg, hx, debounce_one_pulse a p t ha hp, (edges_one_pulse a p t ha hp ht).1,
    (edges_one_pulse a p t ha hp ht).2]
  rfl

/-- Segmentation of any envelope whose above-threshold vector is two
interior pulses with the second entirely inside the 40000-sample window:
the second pulse is erased and only the first is reported. -/
theorem segment_two_pulses_close (x : List ℚ) (a p g q t : Nat)
    (hx : above_thresh x =
      List.replicate a false ++ (List.replicate p true ++ (List.replicate g false ++
        (List.replicate q true ++ List.replicate t false))))
    (ha : 1 ≤ a) (hp : 1 ≤ p) (hg : 1 ≤ g) (hq : 1 ≤ q) (ht : 1 ≤ t)
    (hc : g + q < 40000) :
    segmentIntervals x = [(a - 1, a + p - 1)] := by
  have hseg : segmentIntervals x =
      (strike_start (debounce (above_thresh x))).zip
        (strike_end (debounce (above_thresh x))) := rfl
  rw [hseg, hx, debounce_two_pulses_close a p g q t ha hp hg hq hc,
    (edges_two_pulses_close a p g q t ha hp hg hq ht).1,
    (edges_two_pulses_close a p g q t ha hp hg hq ht).2]
  rfl

/-- Segmentation of any envelope whose above-threshold vector is two
interior pulses separated by at least the re-trigger window: both pulses
are reported, each with its start one sample early. -/
theorem segment_two_pulses_far (x : List ℚ) (a p g q t : Nat)
    (hx : above_thresh x =
      List.replicate a false ++ (List.replicate p true ++ (List.replicate g false ++
        (List.replicate q true ++ List.replicate t false))))
    (ha : 1 ≤ a) (hp : 1 ≤ p) (hq : 1 ≤ q) (ht : 1 ≤ t)
    (hf : 39999 ≤ g) :
    segmentIntervals x = [(a - 1, a + p - 1), (a + p + g - 1, a + p + g + q - 1)] := by
  have hseg : segmentIntervals x =
      (strike_start (debounce (above_thresh x))).zip
        (strike_end (debounce (above_thresh x))) := rfl
  rw [hseg, hx, debounce_two_pulses_far a p g q t ha hp (by omega) hq (by omega),
    (edges_two_pulses_far a p g q t ha hp (by omega) hq ht).1,
    (edges_two_pulses_far a p g q t ha hp (by omega) hq ht).2]
  rfl

/-- Folding max over a nonempty constant run yields max with the value. -/
theorem foldl_max_replicate (n : Nat) (c acc : ℚ) (hn : 1 ≤ n) :
    (List.replicate n c).foldl max acc = max acc c := by
  obtain ⟨m, rfl⟩ : ∃ m, n = m + 1 := ⟨n - 1, by omega⟩
  induction m generalizing acc with
  | zero => rfl
  | succ m ih =>
    rw [List.replicate_succ, List.foldl_cons, ih (max acc c) (by omega)]
    rw [max_assoc, max_self]

/-- The maximum of the scenario-A envelope is its pulse value. -/
theorem envMax_envA : envMax envA = 10000000 := by
  rw [show envA = (1 : ℚ) :: ((((List.replicate 99 (1 : ℚ) ++ List.replicate 51 10000000) ++
      List.replicate 349 1) ++ List.replicate 41 10000000) ++ List.replicate 459 1) from rfl]
  rw [show envMax ((1 : ℚ) :: ((((List.replicate 99 (1 : ℚ) ++ List.replicate 51 10000000) ++
      List.replicate 349 1) ++ List.replicate 41 10000000) ++ List.replicate 459 1)) =
      ((((List.replicate 99 (1 : ℚ) ++ List.replicate 51 10000000) ++
        List.replicate 349 1) ++ List.replicate 41 10000000) ++
        List.replicate 459 1).foldl max 1 from rfl]
  rw [List.foldl_append, List.foldl_append, List.foldl_append, List.foldl_append]
  rw [foldl_max_replicate 99 1 1 (by norm_num),
    foldl_max_replicate 51 10000000 _ (by norm_num),
    foldl_max_replicate 349 1 _ (by norm_num),
    foldl_max_replicate 41 10000000 _ (by norm_num),
    foldl_max_replicate 459 1 _ (by norm_num)]
  decide

/-- The scenario-A detection threshold is 10. -/
theorem threshold_q_envA : threshold_q envA = 10 := by
  rw [show threshold_q envA = envMax envA / 1000000 from rfl, envMax_envA]
  decide

/-- The scenario-A above-threshold vector is exactly the two claimed
regions [100, 150] and [500, 540]. -/
theorem above_thresh_envA :
    above_thresh envA = List.replicate 100 false ++ (List.replicate 51 true ++
      (List.replicate 349 false ++ (List.replicate 41 true ++ List.replicate 459 false))) := by
  rw [show above_thresh envA = above_list envA (threshold_q envA) from rfl, threshold_q_envA]
  have hd1 : (decide ((10 : ℚ) < 1)) = false := by decide
  have hd2 : (decide ((10 : ℚ) < 10000000)) = true := by decide
  show List.map _ _ = _
  rw [show envA = ((((List.replicate 100 (1 : ℚ) ++ List.replicate 51 10000000) ++
      List.replicate 349 1) ++ List.replicate 41 10000000) ++ List.replicate 459 1) from rfl]
  rw [List.map_append, List.map_append, List.map_append, List.map_append,
    List.map_replicate, List.map_replicate, List.map_replicate, List.map_replicate,
    List.map_replicate]
  rw [hd1, hd2]
  rw [List.append_assoc, List.append_assoc, List.append_assoc]

/-- Strike samples of an in-bounds interval exist and have full columns. -/
theorem sample_strike_cols_length (bufs : List (List Int)) (s e : Nat) (hse : s ≤ e)
    (hb : ∀ buf ∈ bufs, e < buf.length) :
    ∃ M, sample_strike bufs s e = some M ∧ M.length = bufs.length ∧
      ∀ col ∈ M, col.length = e - s + 1 := by
  obtain ⟨M, hM, hlen, hcols⟩ := sample_strike_in_bounds bufs s e hse hb
  refine ⟨M, hM, hlen, fun col hcol => ?_⟩
  obtain ⟨c, hc, rfl⟩ := List.mem_iff_getElem.mp hcol
  have hcb : c < bufs.length := by omega
  have hmem : bufs.getD c [] ∈ bufs := by
    rw [List.getD_eq_getElem bufs [] hcb]
    exact List.getElem_mem hcb
  rw [show M[c] = M.getD c [] from (List.getD_eq_getElem M [] hc).symm, hcols c hcb]
  exact sliceChannel_length_of_lt _ s e hse (hb _ hmem)

/-- Claim C1 counterexample: the envelope [1, 10^7, 1, 10^7, 1] holds two
above-threshold pulses (indices 1 and 3) separated by one below sample,
far less than the 40000-sample minimum gap.  Exactly one Strike Interval
is emitted, but it is (0, 1): it ends before the second pulse's index 3,
so it does not span both pulses -- the second pulse is erased rather than
merged into the first. -/
theorem C1_counterexample :
    segmentIntervals env_c1 = [(0, 1)] ∧ ¬(3 ≤ 1) :=
  ⟨by decide, by decide⟩

/-- Claim C1 (amended): for every envelope whose above-threshold vector is
two interior pulses, over [a, a+p-1] and [a+p+g, a+p+g+q-1]: (i) if the
second pulse lies entirely within 40000 samples of the first pulse's end
(g + q < 40000), exactly one Strike Interval is emitted and it covers only
the FIRST pulse, (a-1, a+p-1) -- the second pulse is suppressed sample by
sample, not merged in; (ii) if the second pulse starts at least 40000
samples after the first pulse's end (39999 <= g), two distinct Strike
Intervals are emitted. -/
theorem C1_theorem (x : List ℚ) (a p g q t : Nat)
    (hx : above_thresh x =
      List.replicate a false ++ (List.replicate p true ++ (List.replicate g false ++
        (List.replicate q true ++ List.replicate t false))))
    (ha : 1 ≤ a) (hp : 1 ≤ p) (hg : 1 ≤ g) (hq : 1 ≤ q) (ht : 1 ≤ t) :
    (g + q < 40000 → segmentIntervals x = [(a - 1, a + p - 1)]) ∧
    (39999 ≤ g → segmentIntervals x =
      [(a - 1, a + p - 1), (a + p + g - 1, a + p + g + q - 1)]) :=
  ⟨fun hc => segment_two_pulses_close x a p g q t hx ha hp hg hq ht hc,
   fun hf => segment_two_pulses_far x a p g q t hx ha hp hq ht hf⟩

/-- Claim C1 witness: the close case of the amended theorem at env_c1. -/
theorem C1_witness : segmentIntervals env_c1 = [(0, 1)] := by
  have h := (C1_theorem env_c1 1 1 1 1 1 (by decide) (by decide) (by decide) (by decide)
    (by decide) (by decide)).1 (by decide)
  simpa using h

/-- Claim C4 counterexample: an envelope whose above-threshold samples are
exactly the index range [2, 3] of a 6-sample envelope.  The claim predicts
strike start 2 and a sample of 3 - 2 + 1 = 2 rows; the code emits start 1
(one sample before the region) and the interval (1, 3) spans 3 rows. -/
theorem C4_counterexample :
    segmentIntervals env_c4 = [(1, 3)] ∧ (1 : Nat) ≠ 2 :=
  ⟨by decide, by decide⟩

/-- Claim C4 (amended): (general part) for every envelope whose
above-threshold samples form exactly the range [a, b] (interior, with
b = a + p - 1), the segmenter emits strike start a - 1 and strike end b,
and the strike sample built from channels long enough has b - a + 2 rows
in every column; (scenario A) for the 1000-sample envelope with
above-threshold regions exactly [100, 150] and [500, 540], the 40000-sample
debounce erases the second region, so exactly ONE strike sample is
produced, of 52 rows and 4 columns, with id 1. -/
theorem C4_theorem :
    (∀ (x : List ℚ) (a p t : Nat),
      above_thresh x =
        List.replicate a false ++ (List.replicate p true ++ List.replicate t false) →
      1 ≤ a → 1 ≤ p → 1 ≤ t →
      segmentIntervals x = [(a - 1, a + p - 1)] ∧
      ∀ bufs : List (List Int), (∀ buf ∈ bufs, a + p - 1 < buf.length) →
        ∃ M, sample_strike bufs (a - 1) (a + p - 1) = some M ∧
          M.length = bufs.length ∧ ∀ col ∈ M, col.length = p + 1) ∧
    (segmentIntervals envA = [(99, 150)] ∧
      (∃ M, sample_strike chanA 99 150 = some M ∧ M.length = 4 ∧
        ∀ col ∈ M, col.length = 52) ∧
      sample_file_ids (segmentIntervals envA).length = [1]) := by
  constructor
  · intro x a p t hx ha hp ht
    refine ⟨segment_one_pulse x a p t hx ha hp ht, fun bufs hb => ?_⟩
    obtain ⟨M, hM, hlen, hcols⟩ :=
      sample_strike_cols_length bufs (a - 1) (a + p - 1) (by omega) hb
    exact ⟨M, hM, hlen, fun col hcol => by rw [hcols col hcol]; omega⟩
  · have hseg : segmentIntervals envA = [(99, 150)] := by
      have h := segment_two_pulses_close envA 100 51 349 41 459 above_thresh_envA
        (by norm_num) (by norm_num) (by norm_num) (by norm_num) (by norm_num) (by norm_num)
      simpa using h
    have hblen : ∀ buf ∈ chanA, (150 : Nat) < buf.length := by
      intro buf hbuf
      simp only [chanA, List.mem_map] at hbuf
      obtain ⟨c, hc, rfl⟩ := hbuf
      simp
    refine ⟨hseg, ?_, ?_⟩
    · obtain ⟨M, hM, hlen, hcols⟩ :=
        sample_strike_cols_length chanA 99 150 (by norm_num) hblen
      refine ⟨M, hM, ?_, fun col hcol => by rw [hcols col hcol]⟩
      rw [hlen]
      simp [chanA]
    · rw [hseg]
      rfl

/-- Claim C4 witness: the amended theorem's general part at env_c4 (above
region exactly [2, 3]) with one concrete channel buffer. -/
theorem C4_witness :
    segmentIntervals env_c4 = [(1, 3)] ∧
    ∃ M, sample_strike [[0, 1, 2, 3, 4, 5]] 1 3 = some M ∧ M.length = 1 ∧
      ∀ col ∈ M, col.length = 3 := by
  have h := C4_theorem.1 env_c4 2 2 2 (by decide) (by decide) (by decide) (by decide)
  refine ⟨by simpa using h.1, ?_⟩
  have h2 := h.2 [[0, 1, 2, 3, 4, 5]] (by decide)
  simpa using h2

/-- The filter output has one entry per input sample. -/
theorem sosfilt_sec_length (xs : List ℚ) (s : ℚ × ℚ) :
    (sosfilt_sec xs s).length = xs.length := by
  induction xs generalizing s with
  | nil => rfl
  | cons x rest ih => simp [sosfilt_sec, ih]

/-- Claim C9 (amended): for every master-channel input the envelope has
exactly the same length as the input.  (The other half of the original
claim, non-negativity of every entry, is false: the order-2 Butterworth
filter undershoots below zero; see the counterexample.) -/
theorem C9_theorem (master : List Int) :
    (envelope_of master).length = master.length := by
  rw [envelope_of, sosfilt_sec_length, List.length_map]

/-- On zero input samples, the filter emits the first state component and
advances the state by the zero-input step `zstep`. -/
theorem sosfilt_zero_getD (m : Nat) : ∀ (k : Nat) (s : ℚ × ℚ), k < m →
    (sosfilt_sec (List.replicate m 0) s).getD k 0 = (zstep^[k] s).1 := by
  induction m with
  | zero => omega
  | succ m ih =>
    intro k s hk
    have hP : -butter_a1 = lp_P := by decide
    have hA : butter_a2 = lp_A := by decide
    rw [List.replicate_succ]
    rw [show sosfilt_sec ((0 : ℚ) :: List.replicate m 0) s =
        (butter_b0 * 0 + s.1) :: sosfilt_sec (List.replicate m 0)
          (butter_b1 * 0 - butter_a1 * (butter_b0 * 0 + s.1) + s.2,
           butter_b2 * 0 - butter_a2 * (butter_b0 * 0 + s.1)) from rfl]
    cases k with
    | zero =>
      show butter_b0 * 0 + s.1 = (zstep^[0] s).1
      rw [Function.iterate_zero_apply]
      ring
    | succ k =>
      rw [List.getD_cons_succ, ih k _ (by omega)]
      have hst : (butter_b1 * 0 - butter_a1 * (butter_b0 * 0 + s.1) + s.2,
          butter_b2 * 0 - butter_a2 * (butter_b0 * 0 + s.1)) = zstep s := by
        rw [zstep, Prod.mk.injEq]
        constructor
        · rw [← hP]; ring
        · rw [← hA]; ring
      rw [hst, ← Function.iterate_succ_apply]

/-- The envelope of the impulse master channel at index 1415 is the first
component of the 1414-fold zero-input step from the after-impulse state. -/
theorem envelope_imp_getD :
    (envelope_of master_imp).getD 1415 0 = (zstep^[1414] s_one).1 := by
  rw [envelope_of]
  rw [show master_imp = (1 : Int) :: List.replicate 1500 0 from rfl]
  rw [List.map_cons, List.map_replicate]
  rw [show (((0 : Int) : ℚ)) * (((0 : Int) : ℚ)) = (0 : ℚ) from by norm_num]
  rw [show sosfilt_sec ((((1 : Int) : ℚ)) * (((1 : Int) : ℚ)) :: List.replicate 1500 0) (0, 0) =
      (butter_b0 * ((((1 : Int) : ℚ)) * (((1 : Int) : ℚ))) + 0) ::
        sosfilt_sec (List.replicate 1500 0)
          (butter_b1 * ((((1 : Int) : ℚ)) * (((1 : Int) : ℚ))) -
             butter_a1 * (butter_b0 * ((((1 : Int) : ℚ)) * (((1 : Int) : ℚ))) + 0) + 0,
           butter_b2 * ((((1 : Int) : ℚ)) * (((1 : Int) : ℚ))) -
             butter_a2 * (butter_b0 * ((((1 : Int) : ℚ)) * (((1 : Int) : ℚ))) + 0)) from rfl]
    
  rw [show (1415 : Nat) = 1414 + 1 from rfl, List.getD_cons_succ]
  rw [sosfilt_zero_getD 1500 1414 _ (by norm_num)]
  have hst : (butter_b1 * ((((1 : Int) : ℚ)) * (((1 : Int) : ℚ))) -
      butter_a1 * (butter_b0 * ((((1 : Int) : ℚ)) * (((1 : Int) : ℚ))) + 0) + 0,
      butter_b2 * ((((1 : Int) : ℚ)) * (((1 : Int) : ℚ))) -
      butter_a2 * (butter_b0 * ((((1 : Int) : ℚ)) * (((1 : Int) : ℚ))) + 0)) = s_one := by
    decide
  rw [hst]

/-- The rounding grid is positive. -/
theorem rscale_pos : (0 : ℚ) < rscale := by decide

/-- Rounding rounds down. -/
theorem rdq_le (x : ℚ) : rdq x ≤ x := by
  rw [rdq, div_le_iff₀ rscale_pos]
  exact Int.floor_le (x * rscale)

/-- Rounding loses less than one grid cell. -/
theorem rdq_gt (x : ℚ) : x - rdq x < 1 / rscale := by
  have h := Int.lt_floor_add_one (x * rscale)
  have h2 : x < ((⌊x * rscale⌋ : ℚ) + 1) / rscale := by
    rw [lt_div_iff₀ rscale_pos]
    exact h
  have h3 : ((⌊x * rscale⌋ : ℚ) + 1) / rscale =
      (⌊x * rscale⌋ : ℚ) / rscale + 1 / rscale := by ring
  rw [rdq]
  linarith

/-- The quadratic form contracts exactly by `lp_A` along the zero-input
step: this is the discrete Lyapunov identity of the recurrence. -/
theorem lyapQ_zstep (e : ℚ × ℚ) : lyapQ (zstep e) = lp_A * lyapQ e := by
  simp only [lyapQ, zstep]
  ring

/-- The quadratic form is positive semidefinite. -/
theorem lyapQ_nonneg (v : ℚ × ℚ) : 0 ≤ lyapQ v := by
  have hA : (0 : ℚ) < lp_A := by decide
  have hdisc : lp_P ^ 2 ≤ 4 * lp_A := by decide
  rw [lyapQ]
  nlinarith [sq_nonneg (2 * lp_A * v.1 + lp_P * v.2), sq_nonneg v.2, sq_nonneg v.1,
    mul_pos hA hA]

/-- Weighted subadditivity of the quadratic form, with weights 1 + 1/1000
and 1 + 1000. -/
theorem lyapQ_subadd (u1 u2 r1 r2 : ℚ) :
    lyapQ (u1 + r1, u2 + r2) ≤
      (1 + 1/1000) * lyapQ (u1, u2) + (1 + 1000) * lyapQ (r1, r2) := by
  have hnn := lyapQ_nonneg ((1/1000) * u1 - r1, (1/1000) * u2 - r2)
  have hid : (1 + 1/1000) * lyapQ (u1, u2) + (1 + 1000) * lyapQ (r1, r2) -
      lyapQ (u1 + r1, u2 + r2) =
      1000 * lyapQ ((1/1000) * u1 - r1, (1/1000) * u2 - r2) := by
    simp only [lyapQ]
    ring
  linarith

/-- Bound on the form at a rounding perturbation. -/
theorem lyapQ_rho_bound (r1 r2 : ℚ) (h1a : 0 ≤ r1) (h1b : r1 < 1 / rscale)
    (h2a : 0 ≤ r2) (h2b : r2 < 1 / rscale) :
    lyapQ (r1, r2) ≤ 4 / rscale ^ 2 := by
  have hA1 : lp_A ≤ 1 := by decide
  have hP2 : lp_P ≤ 2 := by decide
  have hA0 : (0 : ℚ) ≤ lp_A := by decide
  have hP0 : (0 : ℚ) ≤ lp_P := by decide
  have hh : (0 : ℚ) < 1 / rscale := by decide
  have e1 : r1 * r1 ≤ (1 / rscale) * (1 / rscale) :=
    mul_le_mul (le_of_lt h1b) (le_of_lt h1b) h1a (le_of_lt hh)
  have e2 : r2 * r2 ≤ (1 / rscale) * (1 / rscale) :=
    mul_le_mul (le_of_lt h2b) (le_of_lt h2b) h2a (le_of_lt hh)
  have e3 : r1 * r2 ≤ (1 / rscale) * (1 / rscale) :=
    mul_le_mul (le_of_lt h1b) (le_of_lt h2b) h2a (le_of_lt hh)
  have e4 : (0 : ℚ) ≤ r1 * r2 := mul_nonneg h1a h2a
  have f1 : lp_A * (r1 * r1) ≤ 1 * ((1 / rscale) * (1 / rscale)) :=
    mul_le_mul hA1 e1 (mul_nonneg h1a h1a) (by norm_num)
  have f2 : lp_P * (r1 * r2) ≤ 2 * ((1 / rscale) * (1 / rscale)) :=
    mul_le_mul hP2 e3 e4 (by norm_num)
  have hgoal4 : (4 : ℚ) / rscale ^ 2 = 4 * ((1 / rscale) * (1 / rscale)) := by ring
  rw [lyapQ, hgoal4]
  nlinarith [f1, f2, e2]

/-- One-step error propagation: if a true state and a shadow state are
within `vbar` in the Lyapunov form, so are their `zstep` and `rstep`
images. -/
theorem err_step (s t : ℚ × ℚ) (h : errQ s t ≤ vbar) :
    errQ (zstep s) (rstep t) ≤ vbar := by
  have hA0 : (0 : ℚ) ≤ lp_A := by decide
  have hdecomp : errQ (zstep s) (rstep t) =
      lyapQ ((lp_P * (s.1 - t.1) + (s.2 - t.2)) +
          ((lp_P * t.1 + t.2) - rdq (lp_P * t.1 + t.2)),
        (-(lp_A * (s.1 - t.1))) + ((-(lp_A * t.1)) - rdq (-(lp_A * t.1)))) := by
    simp only [errQ, zstep, rstep]
    congr 1
    rw [Prod.mk.injEq]
    constructor
    · ring
    · ring
  rw [hdecomp]
  have hsub := lyapQ_subadd (lp_P * (s.1 - t.1) + (s.2 - t.2)) (-(lp_A * (s.1 - t.1)))
    ((lp_P * t.1 + t.2) - rdq (lp_P * t.1 + t.2)) ((-(lp_A * t.1)) - rdq (-(lp_A * t.1)))
  refine le_trans hsub ?_
  have hu : lyapQ (lp_P * (s.1 - t.1) + (s.2 - t.2), -(lp_A * (s.1 - t.1))) =
      lp_A * errQ s t := by
    have hz := lyapQ_zstep (s.1 - t.1, s.2 - t.2)
    simp only [zstep] at hz
    simp only [errQ]
    exact hz
  have hrho := lyapQ_rho_bound ((lp_P * t.1 + t.2) - rdq (lp_P * t.1 + t.2))
    ((-(lp_A * t.1)) - rdq (-(lp_A * t.1)))
    (sub_nonneg.mpr (rdq_le _)) (rdq_gt _)
    (sub_nonneg.mpr (rdq_le _)) (rdq_gt _)
  have hnum : (1 + 1/1000 : ℚ) * (lp_A * vbar) + (1 + 1000) * (4 / rscale ^ 2) ≤ vbar := by
    decide
  have hstep1 : (1 + 1/1000 : ℚ) *
      lyapQ (lp_P * (s.1 - t.1) + (s.2 - t.2), -(lp_A * (s.1 - t.1))) ≤
      (1 + 1/1000) * (lp_A * vbar) := by
    apply mul_le_mul_of_nonneg_left _ (by norm_num)
    rw [hu]
    exact mul_le_mul_of_nonneg_left h hA0
  have hstep2 : (1 + 1000 : ℚ) *
      lyapQ ((lp_P * t.1 + t.2) - rdq (lp_P * t.1 + t.2),
        (-(lp_A * t.1)) - rdq (-(lp_A * t.1))) ≤
      (1 + 1000) * (4 / rscale ^ 2) :=
    mul_le_mul_of_nonneg_left hrho (by norm_num)
  linarith

/-- Error invariant along the two orbits of the after-impulse state. -/
theorem err_iter (n : Nat) : errQ (zstep^[n] s_one) (rstep^[n] s_one) ≤ vbar := by
  induction n with
  | zero =>
    have h0 : errQ s_one s_one = 0 := by
      simp only [errQ, sub_self]
      simp [lyapQ]
    simp only [Function.iterate_zero_apply]
    rw [h0]
    decide
  | succ n ih =>
    rw [Function.iterate_succ_apply', Function.iterate_succ_apply']
    exact err_step _ _ ih

set_option maxRecDepth 9000 in
/-- Shadow orbit after 100 steps. -/
theorem orbit_100 : rstep^[100] s_one =
    (14569565831131841 / 18446744073709551616, -(14395689265064727 / 18446744073709551616)) := by
  decide

set_option maxRecDepth 9000 in
/-- Shadow orbit after 200 steps. -/
theorem orbit_200 : rstep^[200] s_one =
    (22644853222579521 / 18446744073709551616, -(5622427319422517 / 4611686018427387904)) := by
  rw [show (200 : Nat) = 100 + 100 from rfl, Function.iterate_add_apply,
    orbit_100]
  decide

set_option maxRecDepth 9000 in
/-- Shadow orbit after 300 steps. -/
theorem orbit_300 : rstep^[300] s_one =
    (26033608930446903 / 18446744073709551616, -(25902739876890025 / 18446744073709551616)) := by
  rw [show (300 : Nat) = 100 + 200 from rfl, Function.iterate_add_apply,
    orbit_200]
  decide

set_option maxRecDepth 9000 in
/-- Shadow orbit after 400 steps. -/
theorem orbit_400 : rstep^[400] s_one =
    (26149147963040573 / 18446744073709551616, -(26044189349498809 / 18446744073709551616)) := by
  rw [show (400 : Nat) = 100 + 300 from rfl, Function.iterate_add_apply,
    orbit_300]
  decide

set_option maxRecDepth 9000 in
/-- Shadow orbit after 500 steps. -/
theorem orbit_500 : rstep^[500] s_one =
    (24156505119217603 / 18446744073709551616, -(12038228961024789 / 9223372036854775808)) := by
  rw [show (500 : Nat) = 100 + 400 from rfl, Function.iterate_add_apply,
    orbit_400]
  decide

set_option maxRecDepth 9000 in
/-- Shadow orbit after 600 steps. -/
theorem orbit_600 : rstep^[600] s_one =
    (20969417724417715 / 18446744073709551616, -(20911672379360315 / 18446744073709551616)) := by
  rw [show (600 : Nat) = 100 + 500 from rfl, Function.iterate_add_apply,
    orbit_500]
  decide

set_option maxRecDepth 9000 in
/-- Shadow orbit after 700 steps. -/
theorem orbit_700 : rstep^[700] s_one =
    (17268252377766051 / 18446744073709551616, -(2153671595365493 / 2305843009213693952)) := by
  rw [show (700 : Nat) = 100 + 600 from rfl, Function.iterate_add_apply,
    orbit_600]
  decide

set_option maxRecDepth 9000 in
/-- Shadow orbit after 800 steps. -/
theorem orbit_800 : rstep^[800] s_one =
    (13529945819010467 / 18446744073709551616, -(13506237336052271 / 18446744073709551616)) := by
  rw [show (800 : Nat) = 100 + 700 from rfl, Function.iterate_add_apply,
    orbit_700]
  decide

set_option maxRecDepth 9000 in
/-- Shadow orbit after 900 steps. -/
theorem orbit_900 : rstep^[900] s_one =
    (10063283796658195 / 18446744073709551616, -(10051178099279073 / 18446744073709551616)) := by
  rw [show (900 : Nat) = 100 + 800 from rfl, Function.iterate_add_apply,
    orbit_800]
  decide

set_option maxRecDepth 9000 in
/-- Shadow orbit after 1000 steps. -/
theorem orbit_1000 : rstep^[1000] s_one =
    (7044814775857187 / 18446744073709551616, -(3520553255067231 / 9223372036854775808)) := by
  rw [show (1000 : Nat) = 100 + 900 from rfl, Function.iterate_add_apply,
    orbit_900]
  decide

set_option maxRecDepth 9000 in
/-- Shadow orbit after 1100 steps. -/
theorem orbit_1100 : rstep^[1100] s_one =
    (4552332264726687 / 18446744073709551616, -(1138575549117237 / 4611686018427387904)) := by
  rw [show (1100 : Nat) = 100 + 1000 from rfl, Function.iterate_add_apply,
    orbit_1000]
  decide

set_option maxRecDepth 9000 in
/-- Shadow orbit after 1200 steps. -/
theorem orbit_1200 : rstep^[1200] s_one =
    (81067238091465 / 576460752303423488, -(2599607171667177 / 18446744073709551616)) := by
  rw [show (1200 : Nat) = 100 + 1100 from rfl, Function.iterate_add_apply,
    orbit_1100]
  decide

set_option maxRecDepth 9000 in
/-- Shadow orbit after 1300 steps. -/
theorem orbit_1300 : rstep^[1300] s_one =
    (1133375992415309 / 18446744073709551616, -(285158904620127 / 4611686018427387904)) := by
  rw [show (1300 : Nat) = 100 + 1200 from rfl, Function.iterate_add_apply,
    orbit_1200]
  decide

set_option maxRecDepth 9000 in
/-- Shadow orbit after 1400 steps. -/
theorem orbit_1400 : rstep^[1400] s_one =
    (53515515362221 / 9223372036854775808, -(114873798805803 / 18446744073709551616)) := by
  rw [show (1400 : Nat) = 100 + 1300 from rfl, Function.iterate_add_apply,
    orbit_1300]
  decide

set_option maxRecDepth 9000 in
/-- Shadow orbit after 1414 steps. -/
theorem orbit_1414 : rstep^[1414] s_one =
    (-(3093073846939 / 9223372036854775808), -(1664050105947 / 18446744073709551616)) := by
  rw [show (1414 : Nat) = 14 + 1400 from rfl, Function.iterate_add_apply,
    orbit_1400]
  decide

/-- The form dominates a positive multiple of the first coordinate's
square. -/
theorem lyapQ_lower (x y : ℚ) :
    (lp_A - lp_P ^ 2 / 4) * x ^ 2 ≤ lyapQ (x, y) := by
  have h := sq_nonneg (lp_P / 2 * x + y)
  rw [show lyapQ (x, y) = lp_A * x ^ 2 + lp_P * x * y + y ^ 2 from rfl]
  nlinarith [h]

set_option maxRecDepth 8000 in
/-- Claim C9 counterexample: the envelope of the impulse master channel
[1, 0, 0, ...] is strictly negative at index 1415: the order-2 Butterworth
low-pass of line 108 undershoots below zero, so the envelope is not
entrywise non-negative. -/
theorem C9_counterexample : (envelope_of master_imp).getD 1415 0 < 0 := by
  rw [envelope_imp_getD]
  have herr := err_iter 1414
  rw [orbit_1414] at herr
  have herr2 : lyapQ
      ((zstep^[1414] s_one).1 - (-(3093073846939 / 9223372036854775808 : ℚ)),
       (zstep^[1414] s_one).2 - (-(1664050105947 / 18446744073709551616 : ℚ))) ≤ vbar := herr
  have hlow := lyapQ_lower
    ((zstep^[1414] s_one).1 - (-(3093073846939 / 9223372036854775808 : ℚ)))
    ((zstep^[1414] s_one).2 - (-(1664050105947 / 18446744073709551616 : ℚ)))
  have h1 : (lp_A - lp_P ^ 2 / 4) *
      ((zstep^[1414] s_one).1 - (-(3093073846939 / 9223372036854775808 : ℚ))) ^ 2 ≤ vbar :=
    le_trans hlow herr2
  have hgap : (0 : ℚ) < lp_A - lp_P ^ 2 / 4 := by decide
  have hkey : vbar < (lp_A - lp_P ^ 2 / 4) *
      (-(3093073846939 / 9223372036854775808 : ℚ)) ^ 2 := by decide
  have hyneg : (-(3093073846939 / 9223372036854775808 : ℚ)) < 0 := by decide
  have hd2 : ((zstep^[1414] s_one).1 - (-(3093073846939 / 9223372036854775808 : ℚ))) ^ 2 <
      (-(3093073846939 / 9223372036854775808 : ℚ)) ^ 2 := by
    by_contra hcon
    push_neg at hcon
    have h2 := mul_le_mul_of_nonneg_left hcon (le_of_lt hgap)
    linarith
  by_contra hcon
  push_neg at hcon
  nlinarith [hd2, hyneg, hcon]

/-- Claim C2 witness: the amended theorem applied at the envelope
[1, 10^7, 10^7], which ends while still above threshold. -/
theorem C2_witness :
    (strike_start (debounce (above_thresh env_c2))).length =
      (strike_end (debounce (above_thresh env_c2))).length + 1 ∧
    (segmentIntervals env_c2).length =
      (strike_end (debounce (above_thresh env_c2))).length ∧
    (∀ p ∈ segmentIntervals env_c2,
      p.1 < p.2 ∧ p.2 + 2 ≤ (debounce (above_thresh env_c2)).length) ∧
    surfaced_warnings env_c2 = [] :=
  C2_theorem env_c2 (by decide) (by decide)
